import Mathlib

/-!
Verification of the poker server (hand evaluator, game-room engine, lobby
join route) against its natural-language specification.  All definitions
are shallow embeddings of the TypeScript sources:

* hand evaluator        — `hand-evaluator.ts` (src/unnamed/part_010, lines 1-261)
* game-room engine      — `game-room.ts`      (src/unnamed/part_010, lines 262-1275)
* websocket gateway     — `index.ts`          (src/unnamed/part_011)
* lobby join route      — `rooms.ts`          (src/unnamed/part_004, lines 179-295)

Chips are modelled as `Int` (JavaScript numbers holding integral values);
card-evaluation keys as `Nat` (they are built from non-negative literals).
-/

/-- Suits, from `type Suit` in the shared types package. -/
inductive Suit where
  | hearts | diamonds | clubs | spades
deriving DecidableEq, Repr

/-- Ranks, from `type Rank` in the shared types package. -/
inductive Rank where
  | r2 | r3 | r4 | r5 | r6 | r7 | r8 | r9 | r10 | rJ | rQ | rK | rA
deriving DecidableEq, Repr

/-- A playing card, from `interface Card`. -/
structure Card where
  suit : Suit
  rank : Rank
deriving DecidableEq, Repr

/-- `RANK_VALUES` / `getRankValue` from hand-evaluator.ts. -/
def getRankValue : Rank → Nat
  | .r2 => 2 | .r3 => 3 | .r4 => 4 | .r5 => 5 | .r6 => 6 | .r7 => 7
  | .r8 => 8 | .r9 => 9 | .r10 => 10 | .rJ => 11 | .rQ => 12 | .rK => 13
  | .rA => 14

/-- The ten hand categories, from `type HandRank`. -/
inductive HandRank where
  | highCard | pair | twoPair | threeOfAKind | straight | flush
  | fullHouse | fourOfAKind | straightFlush | royalFlush
deriving DecidableEq, Repr

/-- `HAND_RANKINGS` from hand-evaluator.ts. -/
def handRankings : HandRank → Nat
  | .highCard => 1 | .pair => 2 | .twoPair => 3 | .threeOfAKind => 4
  | .straight => 5 | .flush => 6 | .fullHouse => 7 | .fourOfAKind => 8
  | .straightFlush => 9 | .royalFlush => 10

/-- Stable insertion of `x` into `l`: `x` goes before the first element `y`
with `le x y = true`.  Used to model JavaScript's stable `Array.sort`. -/
def insertSorted (le : α → α → Bool) (x : α) : List α → List α
  | [] => [x]
  | y :: ys => if le x y then x :: y :: ys else y :: insertSorted le x ys

/-- Stable sort by the comparator `le` (`le x y` = "x may come before y"). -/
def sortedBy (le : α → α → Bool) (l : List α) : List α :=
  l.foldr (insertSorted le) []

/-- `sortByRank` from hand-evaluator.ts: descending by rank value. -/
def sortByRank (cards : List Card) : List Card :=
  sortedBy (fun a b => getRankValue b.rank ≤ getRankValue a.rank) cards

/-- `getCombinations` from hand-evaluator.ts: all k-card subsets, in the
same (index-lexicographic) enumeration order as the source recursion. -/
def getCombinations : List Card → Nat → List (List Card)
  | _, 0 => [[]]
  | [], _ + 1 => []
  | c :: rest, k + 1 =>
      (getCombinations rest k).map (c :: ·) ++ getCombinations rest (k + 1)

/-- `isFlush` from hand-evaluator.ts: every card has the suit of `cards[0]`. -/
def isFlush (cards : List Card) : Bool :=
  match cards with
  | [] => true
  | c :: _ => cards.all (fun card => card.suit = c.suit)

/-- Checks that consecutive values descend by exactly one — the `for` loop
in `isStraight`. -/
def descendsByOne : List Nat → Bool
  | a :: b :: rest => a = b + 1 && descendsByOne (b :: rest)
  | _ => true

/-- `isStraight` from hand-evaluator.ts, including the wheel check
(`values = [14,5,4,3,2]`). -/
def isStraight (cards : List Card) : Bool :=
  let values := (sortByRank cards).map (fun c => getRankValue c.rank)
  if values = [14, 5, 4, 3, 2] then true
  else descendsByOne values

/-- Number of cards of rank `r` — one entry of `getRankCounts`. -/
def countRank (cards : List Card) (r : Rank) : Nat :=
  (cards.filter (fun c => c.rank = r)).length

/-- The distinct ranks of `cards` in first-occurrence order — the key set
of the `Map` built by `getRankCounts` (JavaScript `Map` iteration order). -/
def dedupRanksFwd : List Card → List Rank
  | [] => []
  | c :: rest =>
      c.rank :: (dedupRanksFwd rest).filter (fun r => ¬ r = c.rank)

/-- The entries of `getRankCounts`: distinct ranks in first-occurrence
order, each paired with its multiplicity. -/
def rankEntriesRaw (cards : List Card) : List (Rank × Nat) :=
  (dedupRanksFwd cards).map (fun r => (r, countRank cards r))

/-- The `ranks` array of `evaluateFiveCards`: entries sorted by count
descending, ties by rank value descending. -/
def sortedRankEntries (cards : List Card) : List (Rank × Nat) :=
  sortedBy
    (fun a b =>
      if b.2 = a.2 then getRankValue b.1 ≤ getRankValue a.1 else b.2 ≤ a.2)
    (rankEntriesRaw cards)

/-- The `counts` array of `evaluateFiveCards`: multiplicities sorted
descending. -/
def sortedCounts (cards : List Card) : List Nat :=
  sortedBy (fun a b => b ≤ a) ((rankEntriesRaw cards).map Prod.snd)

/-- `baseValue` accumulation of `evaluateFiveCards`:
`Σ getRankValue(sorted[i].rank) * 15^(4-i)`. -/
def baseValueAux (i : Nat) : List Card → Nat
  | [] => 0
  | c :: rest => getRankValue c.rank * 15 ^ (4 - i) + baseValueAux (i + 1) rest

/-- Base comparison value over the descending-sorted hand. -/
def baseValue (cards : List Card) : Nat :=
  baseValueAux 0 (sortByRank cards)

/-- Rank value of the i-th card of the sorted hand (`sorted[i].rank`);
the default is never reached on 5-card inputs. -/
def rvAt (sorted : List Card) (i : Nat) : Nat :=
  getRankValue (sorted.getD i ⟨Suit.spades, Rank.r2⟩).rank

/-- Rank value of the i-th entry of the sorted rank entries
(`ranks[i][0]`); the default is never reached where the source reads it. -/
def entryRv (entries : List (Rank × Nat)) (i : Nat) : Nat :=
  getRankValue (entries.getD i (Rank.r2, 0)).1

/-- `evaluateFiveCards` from hand-evaluator.ts.  Returns `none` where the
source throws (`cards.length !== 5`); the human `description` string is not
modelled.  The branch structure and all numeric constants follow the
source. -/
def evaluateFiveCards (cards : List Card) : Option (HandRank × Nat) :=
  if cards.length = 5 then
    let sorted := sortByRank cards
    let isFlushHand := isFlush cards
    let isStraightHand := isStraight cards
    let counts := sortedCounts cards
    let ranks := sortedRankEntries cards
    let base := baseValue cards
    if isFlushHand && isStraightHand && rvAt sorted 0 = 14 && rvAt sorted 4 = 10 then
      some (.royalFlush, handRankings .royalFlush * 1000000000 + base)
    else if isFlushHand && isStraightHand then
      some (.straightFlush, handRankings .straightFlush * 1000000000 + base)
    else if counts.getD 0 0 = 4 then
      some (.fourOfAKind, handRankings .fourOfAKind * 1000000000 + entryRv ranks 0 * 1000000)
    else if counts.getD 0 0 = 3 && counts.getD 1 0 = 2 then
      some (.fullHouse, handRankings .fullHouse * 1000000000
        + entryRv ranks 0 * 1000000 + entryRv ranks 1 * 1000)
    else if isFlushHand then
      some (.flush, handRankings .flush * 1000000000 + base)
    else if isStraightHand then
      let highCard := if rvAt sorted 0 = 14 && rvAt sorted 1 = 5 then 5 else rvAt sorted 0
      some (.straight, handRankings .straight * 1000000000 + highCard * 1000000)
    else if counts.getD 0 0 = 3 then
      some (.threeOfAKind, handRankings .threeOfAKind * 1000000000 + entryRv ranks 0 * 1000000)
    else if counts.getD 0 0 = 2 && counts.getD 1 0 = 2 then
      some (.twoPair, handRankings .twoPair * 1000000000
        + entryRv ranks 0 * 1000000 + entryRv ranks 1 * 1000 + entryRv ranks 2)
    else if counts.getD 0 0 = 2 then
      some (.pair, handRankings .pair * 1000000000 + entryRv ranks 0 * 1000000)
    else
      some (.highCard, handRankings .highCard * 1000000000 + base)
  else none

/-- `evaluateHand` from hand-evaluator.ts: best value over all 5-card
combinations of hole + community cards, with the first maximal combination
kept (strict `>` in the source fold).  Returns `(rankValue, cards)`;
`none` models the `allCards.length < 5` throw.  The `none` arm inside the
fold is unreachable: every combination has length 5. -/
def evaluateHand (holeCards communityCards : List Card) : Option (Nat × List Card) :=
  let allCards := holeCards ++ communityCards
  if allCards.length < 5 then none
  else
    let combos := getCombinations allCards 5
    some (combos.foldl
      (fun best combo =>
        match evaluateFiveCards combo with
        | some (_, v) => if v > best.1 then (v, combo) else best
        | none => best)
      (0, combos.headD []))

/-- `compareHands` from hand-evaluator.ts: positive when the first hand's
rank value is larger (the source subtracts the values). -/
def compareHands (v1 v2 : Nat) : Int :=
  (v1 : Int) - (v2 : Int)

/-! ## Game-room engine (game-room.ts)

The source keeps two synchronized copies of each seated player: the
`RoomPlayer` in `this.players` and the snapshot in `gameState.players`.
Every mutation path (`syncPlayerState`, the direct assignments in
`handleFold` / `handleAllIn` / `checkForWinner` / blind posting) keeps
`stack`, `currentBet` and `status` equal between the two, so the embedding
merges them into a single `GamePlayer` list.  WebSocket handles, usernames
and timers carry no game state and are not modelled. -/

/-- Player statuses, from `type PlayerStatus`. -/
inductive PStatus where
  | waiting | active | folded | allIn | sittingOut
deriving DecidableEq, Repr

/-- A seated player, merging `RoomPlayer` and the `gameState.players`
snapshot (see the section comment). -/
structure GamePlayer where
  userId : Nat
  seatNumber : Int
  stack : Int
  currentBet : Int
  status : PStatus
  holeCards : List Card
  isDealer : Bool
  isSmallBlind : Bool
  isBigBlind : Bool
deriving DecidableEq, Repr

/-- Placeholder for out-of-range list reads (unreachable where the source
indexes validly). -/
def defaultGamePlayer : GamePlayer :=
  ⟨0, 0, 0, 0, .waiting, [], false, false, false⟩

/-- Hand phases, from the `phases` array of `advancePhase`. -/
inductive Phase where
  | preflop | flop | turn | river | showdownPhase
deriving DecidableEq, Repr

/-- Index of a phase in the `phases` array. -/
def phaseIndex : Phase → Nat
  | .preflop => 0 | .flop => 1 | .turn => 2 | .river => 3 | .showdownPhase => 4

/-- Phase at a given index of the `phases` array (clipped at showdown). -/
def phaseOfIndex : Nat → Phase
  | 0 => .preflop | 1 => .flop | 2 => .turn | 3 => .river | _ => .showdownPhase

/-- `RoomConfig` from game-room.ts (id and name omitted — they carry no
game state). -/
structure RoomConfig where
  smallBlind : Int
  bigBlind : Int
  minBuyIn : Int
  maxBuyIn : Int
  maxPlayers : Int
deriving DecidableEq, Repr

/-- The live hand: `GameState` plus the room-level betting-round tracking
(`playersActedThisRound`, `lastAggressorId`) and the remaining deck. -/
structure HandState where
  phase : Phase
  pot : Int
  communityCards : List Card
  currentPlayerIndex : Nat
  dealerIndex : Nat
  smallBlindIndex : Nat
  bigBlindIndex : Nat
  currentBet : Int
  minRaise : Int
  players : List GamePlayer
  acted : List Nat
  lastAggressorId : Option Nat
  deck : List Card
deriving DecidableEq, Repr

/-- One winner entry of a `RoundResult`; `handCards` is the optional
`hand` field (its best-five cards) of the broadcast payload. -/
structure WinnerEntry where
  userId : Nat
  amount : Int
  handCards : Option (List Card)
deriving DecidableEq, Repr

/-- The `hand_result` broadcast payload: `RoundResult` plus the optional
`revealedHands` / `communityCards` fields spread in at showdown. -/
structure RoundResult where
  winners : List WinnerEntry
  pot : Int
  revealedHands : Option (List (Nat × List Card))
  communityCards : Option (List Card)
deriving DecidableEq, Repr

/-- Modelled from the spec: the `Deck` class (`deck.ts`) is not among the
provided sources.  §3 of the spec defines the deck as a shuffled 52-card
sequence where "dealing consumes from the front; no card is reused within
a hand", so `deal n` returns the first `n` cards and the remainder. -/
def dealFrom (deck : List Card) (n : Nat) : List Card × List Card :=
  (deck.take n, deck.drop n)

/-- Mutation of the first player whose `userId` matches — the semantics of
`this.players.get(userId)` / `gameState.players.find(...)` updates. -/
def updateFirst (uid : Nat) (f : GamePlayer → GamePlayer) :
    List GamePlayer → List GamePlayer
  | [] => []
  | p :: rest =>
      if p.userId = uid then f p :: rest else p :: updateFirst uid f rest

/-- `handleFold` from game-room.ts. -/
def handleFold (s : HandState) (uid : Nat) : Option HandState :=
  match s.players.find? (fun p => p.userId = uid) with
  | none => none
  | some _ =>
      some { s with players := updateFirst uid (fun p => { p with status := .folded }) s.players }

/-- `handleCheck` from game-room.ts: fails when there is a bet to call. -/
def handleCheck (s : HandState) (uid : Nat) : Option HandState :=
  match s.players.find? (fun p => p.userId = uid) with
  | none => none
  | some p => if p.currentBet < s.currentBet then none else some s

/-- `handleCall` from game-room.ts. -/
def handleCall (s : HandState) (uid : Nat) : Option HandState :=
  match s.players.find? (fun p => p.userId = uid) with
  | none => none
  | some p =>
      let callAmount := s.currentBet - p.currentBet
      if callAmount ≤ 0 then none
      else
        let actualCall := min callAmount p.stack
        some { s with
          players := updateFirst uid (fun q =>
            { q with stack := q.stack - actualCall,
                     currentBet := q.currentBet + actualCall,
                     status := if q.stack - actualCall = 0 then .allIn else q.status }) s.players,
          pot := s.pot + actualCall }

/-- `handleRaise` from game-room.ts.  Note that `minRaise` is assigned the
raise amount unconditionally. -/
def handleRaise (s : HandState) (uid : Nat) (raiseAmount : Int) : Option HandState :=
  match s.players.find? (fun p => p.userId = uid) with
  | none => none
  | some p =>
      let callAmount := s.currentBet - p.currentBet
      let totalAmount := callAmount + raiseAmount
      if totalAmount > p.stack then none
      else if raiseAmount < s.minRaise ∧ p.stack > totalAmount then none
      else
        some { s with
          players := updateFirst uid (fun q =>
            { q with stack := q.stack - totalAmount,
                     currentBet := q.currentBet + totalAmount,
                     status := if q.stack - totalAmount = 0 then .allIn else q.status }) s.players,
          pot := s.pot + totalAmount,
          currentBet := p.currentBet + totalAmount,
          minRaise := raiseAmount }

/-- `handleAllIn` from game-room.ts: the table bet rises to the player's
new bet when it exceeds it, and `minRaise` only when the raise portion
exceeds the previous `minRaise`. -/
def handleAllIn (s : HandState) (uid : Nat) : Option HandState :=
  match s.players.find? (fun p => p.userId = uid) with
  | none => none
  | some p =>
      let allInAmount := p.stack
      let newBet := p.currentBet + allInAmount
      let newTableBet := if newBet > s.currentBet then newBet else s.currentBet
      let newMinRaise :=
        if newBet > s.currentBet then
          if newBet - s.currentBet > s.minRaise then newBet - s.currentBet else s.minRaise
        else s.minRaise
      some { s with
        players := updateFirst uid (fun q =>
          { q with currentBet := q.currentBet + allInAmount, stack := 0, status := .allIn }) s.players,
        pot := s.pot + allInAmount,
        currentBet := newTableBet,
        minRaise := newMinRaise }

/-- Inbound actions, from `type PlayerAction`. -/
inductive PlayerAction where
  | fold | check | call | raise (amount : Int) | allIn
deriving DecidableEq, Repr

/-- `handleAction` from game-room.ts: turn check, dispatch to the handler,
then the acted-this-round bookkeeping.  The aggression test for `all-in`
reads the player's bet and the table bet AFTER `handleAllIn` ran, exactly
as the source does. -/
def handleAction (s : HandState) (uid : Nat) (act : PlayerAction) : Option HandState :=
  match s.players.get? s.currentPlayerIndex with
  | none => none
  | some currentPlayer =>
    if currentPlayer.userId ≠ uid then none
    else
      match s.players.find? (fun p => p.userId = uid) with
      | none => none
      | some _ =>
        let handlerResult :=
          match act with
          | .fold => handleFold s uid
          | .check => handleCheck s uid
          | .call => handleCall s uid
          | .raise amount => handleRaise s uid amount
          | .allIn => handleAllIn s uid
        match handlerResult with
        | none => none
        | some s1 =>
          let isAggression : Bool :=
            match act with
            | .raise _ => true
            | .allIn =>
                match s1.players.find? (fun q => q.userId = uid) with
                | some q => decide (q.currentBet > s1.currentBet)
                | none => false
            | _ => false
          if isAggression then some { s1 with acted := [uid], lastAggressorId := some uid }
          else some { s1 with acted := if s1.acted.contains uid then s1.acted else uid :: s1.acted }

/-- `isBettingRoundComplete` from game-room.ts. -/
def isBettingRoundComplete (s : HandState) : Bool :=
  let activePlayers := s.players.filter (fun p => p.status = .active)
  if activePlayers.length ≤ 1 then true
  else
    activePlayers.all (fun p => s.acted.contains p.userId) &&
    activePlayers.all (fun p => p.currentBet = s.currentBet)

/-- `checkForWinner` from game-room.ts: when exactly one non-folded player
remains, the whole pot goes to their stack and the `hand_result` payload
carries that single winner, no `revealedHands` and no `communityCards`. -/
def checkForWinner (s : HandState) : Option (List GamePlayer × RoundResult) :=
  match s.players.filter (fun p => ¬ p.status = .folded) with
  | [winner] =>
      let winAmount := s.pot
      some
        (updateFirst winner.userId (fun q => { q with stack := q.stack + winAmount }) s.players,
         { winners := [⟨winner.userId, winAmount, none⟩],
           pot := s.pot, revealedHands := none, communityCards := none })
  | _ => none

/-- The hand-evaluation loop of `showdown`: one `(player, value, best
five cards)` entry per eligible player; `none` models the `evaluateHand`
throw aborting the loop. -/
def evalResults (communityCards : List Card) :
    List GamePlayer → Option (List (GamePlayer × Nat × List Card))
  | [] => some []
  | p :: rest =>
      match evaluateHand p.holeCards communityCards with
      | none => none
      | some hv => (evalResults communityCards rest).map (fun tl => (p, hv) :: tl)

/-- `showdown` from game-room.ts.  `none` models the two crash paths: an
`evaluateHand` throw (fewer than five cards available) and the
`results[0]` read on an empty list. -/
def showdown (s : HandState) : Option (List GamePlayer × RoundResult) :=
  let eligiblePlayers := s.players.filter (fun p => ¬ p.status = .folded)
  match evalResults s.communityCards eligiblePlayers with
  | none => none
  | some results =>
    let sortedResults := sortedBy (fun a b => b.2.1 ≤ a.2.1) results
    match sortedResults with
    | [] => none
    | top :: _ =>
      let topHandValue := top.2.1
      let winningPlayers := sortedResults.filter (fun r => r.2.1 = topHandValue)
      let winAmount := Int.fdiv s.pot (winningPlayers.length : Int)
      let finalPlayers := winningPlayers.foldl
        (fun acc r =>
          updateFirst r.1.userId (fun q => { q with stack := q.stack + winAmount }) acc)
        s.players
      some
        (finalPlayers,
         { winners := winningPlayers.map (fun r => ⟨r.1.userId, winAmount, some r.2.2⟩),
           pot := s.pot,
           revealedHands := some (sortedResults.map (fun r => (r.1.userId, r.1.holeCards))),
           communityCards := some s.communityCards })

/-- Outcome of advancing the game: the hand continues, or it ended with
final player stacks and a `hand_result`. -/
inductive StepRes where
  | cont (s : HandState)
  | ended (finalPlayers : List GamePlayer) (result : RoundResult)
deriving DecidableEq, Repr

/-- The `do/while` next-player search of `advanceGame`, with its
`loopCount > players.length` break.  The fuel exceeds the loop bound, so
the `0` arm is unreachable. -/
def nextActiveGo (ps : List GamePlayer) (n : Nat) : Nat → Nat → Nat → Nat
  | 0, _, idx => idx
  | fuel + 1, loopCount, idx =>
      let idx1 := (idx + 1) % n
      let lc1 := loopCount + 1
      if n < lc1 then idx1
      else
        let st := (ps.getD idx1 defaultGamePlayer).status
        if st = .folded ∨ st = .allIn then nextActiveGo ps n fuel lc1 idx1
        else idx1

/-- Source do/while from `advanceGame`: next index after
`currentPlayerIndex`, skipping folded and all-in players, bailing out
after a full lap. -/
def nextActiveIndex (ps : List GamePlayer) (start : Nat) : Nat :=
  if ps.length = 0 then start
  else nextActiveGo ps ps.length (ps.length + 2) 0 start

/-- The unguarded `while` loop of `advancePhase` searching the first
non-folded, non-all-in seat from `dealerIndex + 1`.  `none` models the
case where the source loop never terminates (every seat folded/all-in). -/
def findActiveGo (ps : List GamePlayer) (n : Nat) : Nat → Nat → Option Nat
  | 0, _ => none
  | fuel + 1, idx =>
      let st := (ps.getD idx defaultGamePlayer).status
      if st = .folded ∨ st = .allIn then findActiveGo ps n fuel ((idx + 1) % n)
      else some idx

/-- First non-folded, non-all-in index left of the dealer. -/
def findActiveStart (ps : List GamePlayer) (dealerIndex : Nat) : Option Nat :=
  if ps.length = 0 then none
  else findActiveGo ps ps.length (ps.length + 1) ((dealerIndex + 1) % ps.length)

/-- `advancePhase` from game-room.ts: reset bets and tracking, advance the
phase, deal community cards, place the first actor, and short-circuit to
`showdown` from river-close or when at most one active player remains
(running out the board first). -/
def advancePhase (cfg : RoomConfig) (s : HandState) : Option StepRes :=
  let s0 := { s with
    acted := [], lastAggressorId := none,
    players := s.players.map (fun p => { p with currentBet := 0 }),
    currentBet := 0, minRaise := cfg.bigBlind }
  if 4 ≤ phaseIndex s.phase then
    (showdown s0).map (fun pr => .ended pr.1 pr.2)
  else
    let newPhase := phaseOfIndex (phaseIndex s.phase + 1)
    if newPhase = .showdownPhase then
      (showdown { s0 with phase := newPhase }).map (fun pr => .ended pr.1 pr.2)
    else
      let (dealtCards, deck1) :=
        match newPhase with
        | .flop => dealFrom s0.deck 3
        | _ => dealFrom s0.deck 1
      let community1 :=
        match newPhase with
        | .flop => dealtCards
        | _ => s0.communityCards ++ dealtCards
      let s1 := { s0 with phase := newPhase, communityCards := community1, deck := deck1 }
      match findActiveStart s1.players s1.dealerIndex with
      | none => none
      | some startIndex =>
        let s2 := { s1 with currentPlayerIndex := startIndex }
        let activePlayers := s2.players.filter (fun p => p.status = .active)
        if activePlayers.length ≤ 1 then
          let (runout, deck2) :=
            match s2.phase with
            | .flop => dealFrom s2.deck 2
            | .turn => dealFrom s2.deck 1
            | _ => ([], s2.deck)
          (showdown { s2 with communityCards := s2.communityCards ++ runout, deck := deck2 }).map
            (fun pr => .ended pr.1 pr.2)
        else some (.cont s2)

/-- `advanceGame` from game-room.ts (sans broadcasts): fold-to-one check,
next-player search, round-closure test. -/
def advanceGame (cfg : RoomConfig) (s : HandState) : Option StepRes :=
  match checkForWinner s with
  | some (ps, r) => some (.ended ps r)
  | none =>
    let nextIndex := nextActiveIndex s.players s.currentPlayerIndex
    if isBettingRoundComplete s then advancePhase cfg s
    else some (.cont { s with currentPlayerIndex := nextIndex })

/-- One full engine step: a player action followed by `advanceGame`,
exactly as a successful `handleAction` triggers `advanceGame` in the
source. -/
def actionStep (cfg : RoomConfig) (uid : Nat) (act : PlayerAction) (s : HandState) :
    Option StepRes :=
  (handleAction s uid act).bind (advanceGame cfg)

/-- Ascending stable sort by seat number (`activePlayers.sort`). -/
def sortBySeat (ps : List GamePlayer) : List GamePlayer :=
  sortedBy (fun a b => a.seatNumber ≤ b.seatNumber) ps

/-- The per-player reset loop of `startNewHand`: status `active`, bet 0,
two hole cards dealt to each player in sorted seat order. -/
def dealHoles : List GamePlayer → List Card → List GamePlayer × List Card
  | [], deck => ([], deck)
  | p :: rest, deck =>
      let (hole, deck1) := dealFrom deck 2
      let (ps, deck2) := dealHoles rest deck1
      ({ p with status := .active, currentBet := 0, holeCards := hole } :: ps, deck2)

/-- In-place update at a list index (`activePlayers[i] = ...`). -/
def modifyIdx (f : α → α) : Nat → List α → List α
  | _, [] => []
  | 0, x :: xs => f x :: xs
  | i + 1, x :: xs => x :: modifyIdx f i xs

/-- Blind posting from `startNewHand`: deduct `min(blind, stack)`, set
`currentBet` to it, go all-in on a now-empty stack. -/
def postBlind (blind : Int) (p : GamePlayer) : GamePlayer :=
  let amt := min blind p.stack
  { p with stack := p.stack - amt, currentBet := amt,
           status := if p.stack - amt = 0 then .allIn else p.status }

/-- `startNewHand` from game-room.ts, parametrised by the shuffled deck.
Returns `none` when fewer than two seated players have chips (the source
leaves `gameState = null`). -/
def startNewHand (cfg : RoomConfig) (roomPlayers : List GamePlayer)
    (lastDealerIndex : Int) (deck : List Card) : Option HandState :=
  let activePlayers := roomPlayers.filter (fun p => p.stack > 0)
  if activePlayers.length < 2 then none
  else
    let sortedPs := sortBySeat activePlayers
    let n := sortedPs.length
    let dealerIndex := ((lastDealerIndex + 1).emod (n : Int)).toNat
    let isHeadsUp := n = 2
    let smallBlindIndex := if isHeadsUp then dealerIndex else (dealerIndex + 1) % n
    let bigBlindIndex :=
      if isHeadsUp then (dealerIndex + 1) % n else (dealerIndex + 2) % n
    let (dealt, deckAfter) := dealHoles sortedPs deck
    let sbAmount := min cfg.smallBlind ((dealt.getD smallBlindIndex defaultGamePlayer).stack)
    let bbAmount := min cfg.bigBlind ((dealt.getD bigBlindIndex defaultGamePlayer).stack)
    let afterSB := modifyIdx (postBlind cfg.smallBlind) smallBlindIndex dealt
    let afterBB := modifyIdx (postBlind cfg.bigBlind) bigBlindIndex afterSB
    let dealerSeat := (dealt.getD dealerIndex defaultGamePlayer).seatNumber
    let sbSeat := (dealt.getD smallBlindIndex defaultGamePlayer).seatNumber
    let bbSeat := (dealt.getD bigBlindIndex defaultGamePlayer).seatNumber
    some {
      phase := .preflop,
      pot := sbAmount + bbAmount,
      communityCards := [],
      currentPlayerIndex := (bigBlindIndex + 1) % n,
      dealerIndex, smallBlindIndex, bigBlindIndex,
      currentBet := bbAmount,
      minRaise := cfg.bigBlind,
      players := afterBB.map (fun p =>
        { p with isDealer := p.seatNumber = dealerSeat,
                 isSmallBlind := p.seatNumber = sbSeat,
                 isBigBlind := p.seatNumber = bbSeat }),
      acted := [], lastAggressorId := none,
      deck := deckAfter }

/-- Total chips on the table: every hand player's stack plus the pot. -/
def sumStacks (ps : List GamePlayer) : Int :=
  (ps.map GamePlayer.stack).sum

/-- The conserved quantity of claim C1. -/
def chipSum (s : HandState) : Int :=
  sumStacks s.players + s.pot

/-! ## Lobby join route (rooms.ts) and the transaction ledger -/

/-- A `rooms` row as read by the join route. -/
structure RoomRow where
  smallBlind : Int
  bigBlind : Int
  minBuyIn : Int
  maxBuyIn : Int
  maxPlayers : Int
  closed : Bool
deriving DecidableEq, Repr

/-- A `table_players` row (fields the join route writes). -/
structure SeatRow where
  userId : Nat
  seatNumber : Int
  stack : Int
deriving DecidableEq, Repr

/-- A `transactions` row (fields the sources write). -/
structure TransactionRow where
  userId : Nat
  txType : String
  amount : Int
  balanceBefore : Int
  balanceAfter : Int
deriving DecidableEq, Repr

/-- The store state the join route reads and writes for one user and one
room: the user's wallet balance, the room's seat rows, the ledger. -/
structure LobbyState where
  balance : Int
  seats : List SeatRow
  transactions : List TransactionRow
deriving DecidableEq, Repr

/-- HTTP response of the join route. -/
inductive JoinResponse where
  | ok (seatNumber : Int) (stack : Int) (newBalance : Int)
  | err (statusCode : Nat) (message : String)
deriving DecidableEq, Repr

/-- `POST /rooms/:id/join` from rooms.ts (lines 179-295), for an existing
room and an existing authenticated user; check order and error strings
follow the source exactly. -/
def joinRoom (room : RoomRow) (uid : Nat) (st : LobbyState)
    (seatNumber buyIn : Int) : JoinResponse × LobbyState :=
  if room.closed then (.err 400 "Room is closed", st)
  else if buyIn < room.minBuyIn ∨ buyIn > room.maxBuyIn then
    (.err 400 ("Buy-in must be between " ++ toString room.minBuyIn ++ " and "
      ++ toString room.maxBuyIn), st)
  else
    let minRequired := room.bigBlind * 3
    if st.balance < minRequired then
      (.err 400 ("You need at least " ++ toString minRequired
        ++ " chips (3 big blinds) to join"), st)
    else if st.balance < buyIn then (.err 400 "Insufficient balance", st)
    else if st.seats.any (fun s => s.userId = uid) then
      (.err 400 "You are already at this table", st)
    else if (st.seats.length : Int) ≥ room.maxPlayers then
      (.err 400 "Table is full", st)
    else if st.seats.any (fun s => s.seatNumber = seatNumber) then
      (.err 400 "Seat is already taken", st)
    else
      (.ok seatNumber buyIn (st.balance - buyIn),
       { balance := st.balance - buyIn,
         seats := st.seats ++ [⟨uid, seatNumber, buyIn⟩],
         transactions := st.transactions
           ++ [⟨uid, "buy_in", -buyIn, st.balance, st.balance - buyIn⟩] })

/-- The transaction-ledger inserts of `saveGameResult` (game-room.ts,
lines 1098-1135): guarded by `result.winners.length > 0 && this.gameState`
(line 1111), one `win` row per winner with the winner's share as amount
and both balance fields hard-coded to `0` (the source comment reads
`// Stack based, not wallet`).  `gameStateLive` is the truthiness of
`this.gameState` at the moment the guard is evaluated.  The stack updates
and the `game_history` insert of the same function target other record
sets and are outside the ledger model. -/
def saveGameResultTransactions (result : RoundResult) (gameStateLive : Bool) :
    List TransactionRow :=
  if result.winners.length > 0 ∧ gameStateLive = true then
    result.winners.map (fun w => ⟨w.userId, "win", w.amount, 0, 0⟩)
  else []

/-- The ledger outcome at the end of a hand, at both call sites
(`checkForWinner`, line 1015, and `showdown`, line 1094): the source calls
`this.saveGameResult(result)` WITHOUT await and then `this.endHand()`.
A JavaScript async function runs synchronously only until its first
`await`, so with at least one player in the room map the stack-persistence
loop of `saveGameResult` suspends at its `await db.update(...)`,
`endHand()` then runs and sets `this.gameState = null` (line 1156), and
the guard of the ledger insert is evaluated afterwards against the nulled
`gameState`; only with an empty room map is the guard reached before
`endHand` runs, while `gameState` is still live. -/
def endOfHandTransactions (roomPlayers : List GamePlayer) (result : RoundResult) :
    List TransactionRow :=
  saveGameResultTransactions result roomPlayers.isEmpty

/-! ## WebSocket gateway dispatch (index.ts) -/

/-- The names of every method (getters included) defined on
`class GameRoom` in game-room.ts. -/
def gameRoomMethods : List String :=
  ["id", "playerCount", "addPlayer", "removePlayer", "sitOutPlayer",
   "addSpectator", "removeSpectator", "handleAction", "handleFold",
   "handleCheck", "handleCall", "handleRaise", "handleAllIn",
   "syncPlayerState", "startNewHand", "advanceGame",
   "isBettingRoundComplete", "advancePhase", "checkForWinner", "showdown",
   "saveGameResult", "endHand", "startTurnTimer", "clearTurnTimer",
   "getPublicGameState", "broadcast", "sendToPlayer"]

/-- The `GameRoom` members `handleDisconnect` (index.ts, lines 436-453)
accesses on the room of a closing authenticated, room-bound socket whose
room has at least one seated player. -/
def handleDisconnectInvokedMethods : List String :=
  ["playerCount", "handlePlayerDisconnect", "removeSpectator"]

/-! ## Concrete demonstration material -/

/-- A fresh waiting player with no cards and no bet. -/
def mkPlayer (uid : Nat) (seat stack : Int) : GamePlayer :=
  ⟨uid, seat, stack, 0, .waiting, [], false, false, false⟩

/-- A 10/20-blind table, as in the spec's concrete scenarios. -/
def demoCfg : RoomConfig := ⟨10, 20, 200, 2000, 9⟩

/-- A deck prefix: six hole cards for three seated players, then a
royal-flush board, so every player left at showdown plays the board and
ties. -/
def demoDeck : List Card :=
  [⟨.hearts, .r2⟩, ⟨.hearts, .r3⟩,
   ⟨.diamonds, .r2⟩, ⟨.diamonds, .r3⟩,
   ⟨.clubs, .r2⟩, ⟨.clubs, .r3⟩,
   ⟨.spades, .r10⟩, ⟨.spades, .rJ⟩, ⟨.spades, .rQ⟩,
   ⟨.spades, .rK⟩, ⟨.spades, .rA⟩]

/-- Runs a list of engine steps from a hand state; `none` on a rejected
action or when the hand ends with actions left over. -/
def runSteps (cfg : RoomConfig) : List (Nat × PlayerAction) → HandState → Option StepRes
  | [], s => some (.cont s)
  | (uid, act) :: rest, s =>
      match actionStep cfg uid act s with
      | some (.cont s1) => runSteps cfg rest s1
      | some (.ended ps r) => if rest.isEmpty then some (.ended ps r) else none
      | none => none

/-- C1 counterexample trace: three 100-chip stacks, a preflop raise to 41
called twice, the opener folding on the flop, and a checked-down
royal-flush board — a 123-chip pot split between two tied winners. -/
def c1Run : Option StepRes :=
  (startNewHand demoCfg [mkPlayer 1 0 100, mkPlayer 2 1 100, mkPlayer 3 2 100]
      (-1) demoDeck).bind
    (runSteps demoCfg
      [(1, .raise 21), (2, .call), (3, .call),
       (2, .check), (3, .check), (1, .fold),
       (2, .check), (3, .check),
       (2, .check), (3, .check)])

/-- Final (stack sum, pot, winner count) of an ended run. -/
def endedSummary : Option StepRes → Option (Int × Int × Nat)
  | some (.ended ps r) => some (sumStacks ps, r.pot, r.winners.length)
  | _ => none

/-- C2 counterexample trace: the big blind (25-chip stack, 20 posted) goes
all-in for 5 more after both opponents called 20 — a short all-in
(5 < minRaise 20) that raises the table bet to 25. -/
def c2Run : Option StepRes :=
  (startNewHand demoCfg [mkPlayer 1 0 100, mkPlayer 2 1 100, mkPlayer 3 2 25]
      (-1) demoDeck).bind
    (runSteps demoCfg [(1, .call), (2, .call), (3, .allIn)])

/-- For a continuing state: membership of players 1 and 2 in the
acted-this-round set, round-completeness, table bet, next actor index. -/
def c2Probe : Option StepRes → Option (Bool × Bool × Bool × Int × Nat)
  | some (.cont s) =>
      some (s.acted.contains 1, s.acted.contains 2,
            isBettingRoundComplete s, s.currentBet, s.currentPlayerIndex)
  | _ => none

/-- C4 counterexample: heads-up 25-chip dealer posts 10, then raises all-in
by 5 (stack 15 = toCall 10 + 5) — legal, and `minRaise` drops from 20
to 5. -/
def c4Probe : Option (Int × Int) :=
  (startNewHand demoCfg [mkPlayer 1 0 25, mkPlayer 2 1 100] (-1) demoDeck).bind
    (fun s0 => (handleAction s0 1 (.raise 5)).map (fun s1 => (s0.minRaise, s1.minRaise)))

/-- Extracts the continuing state of a step outcome. -/
def contState : Option StepRes → Option HandState
  | some (.cont s) => some s
  | _ => none

/-- Concrete state for the C8 witness: a heads-up preflop round that has
just closed (both players bet 20 and acted), dealer at index 0, big blind
at index 1, deck ready for the flop. -/
def c8FlopState : HandState :=
  { phase := .preflop, pot := 40, communityCards := [],
    currentPlayerIndex := 0, dealerIndex := 0, smallBlindIndex := 0, bigBlindIndex := 1,
    currentBet := 20, minRaise := 20,
    players :=
      [⟨1, 0, 980, 20, .active, [], true, true, false⟩,
       ⟨2, 1, 980, 20, .active, [], false, false, true⟩],
    acted := [1, 2], lastAggressorId := none, deck := demoDeck }

/-! ## Supporting lemmas -/

theorem sumStacks_nil : sumStacks [] = 0 := rfl

theorem sumStacks_cons (p : GamePlayer) (l : List GamePlayer) :
    sumStacks (p :: l) = p.stack + sumStacks l := by
  simp [sumStacks]

theorem sumStacks_updateFirst (uid : Nat) (f : GamePlayer → GamePlayer) :
    ∀ (l : List GamePlayer) (p : GamePlayer),
      l.find? (fun q => q.userId = uid) = some p →
      sumStacks (updateFirst uid f l) = sumStacks l - p.stack + (f p).stack := by
  intro l
  induction l with
  | nil => intro p h; simp [List.find?] at h
  | cons a l ih =>
      intro p h
      by_cases ha : a.userId = uid
      · rw [List.find?_cons_of_pos _ (by simpa using ha)] at h
        injection h with h2
        subst h2
        simp [updateFirst, ha, sumStacks_cons]
        ring
      · rw [List.find?_cons_of_neg _ (by simpa using ha)] at h
        simp only [updateFirst, if_neg ha, sumStacks_cons, ih p h]
        ring

theorem find?_userId_isSome (l : List GamePlayer) (uid : Nat) (q : GamePlayer)
    (hq : q ∈ l) (h : q.userId = uid) :
    ∃ p, l.find? (fun r => r.userId = uid) = some p := by
  have : (l.find? (fun r => r.userId = uid)).isSome := by
    rw [List.find?_isSome]
    exact ⟨q, hq, by simpa using h⟩
  exact Option.isSome_iff_exists.mp this

theorem updateFirst_map_userId (uid : Nat) (f : GamePlayer → GamePlayer)
    (hf : ∀ q, (f q).userId = q.userId) :
    ∀ l : List GamePlayer,
      (updateFirst uid f l).map GamePlayer.userId = l.map GamePlayer.userId := by
  intro l
  induction l with
  | nil => rfl
  | cons a l ih =>
      by_cases ha : a.userId = uid
      · simp [updateFirst, ha, hf]
      · simp [updateFirst, ha, ih]

theorem mem_updateFirst_of_userId_ne (uid : Nat) (f : GamePlayer → GamePlayer) :
    ∀ l : List GamePlayer, ∀ q ∈ l, ¬ q.userId = uid → q ∈ updateFirst uid f l := by
  intro l
  induction l with
  | nil => intro q hq; simp at hq
  | cons a l ih =>
      intro q hq hne
      by_cases ha : a.userId = uid
      · simp [updateFirst, ha]
        rcases List.mem_cons.mp hq with h | h
        · exact absurd (h ▸ hne) (by simp [ha])
        · exact Or.inr h
      · simp [updateFirst, ha]
        rcases List.mem_cons.mp hq with h | h
        · exact Or.inl h
        · exact Or.inr (ih q h hne)

theorem updateFirst_mem_cases (uid : Nat) (f : GamePlayer → GamePlayer) :
    ∀ l : List GamePlayer,
      (l.filter (fun q => q.userId = uid)).length ≤ 1 →
      ∀ x ∈ updateFirst uid f l,
        (x ∈ l ∧ ¬ x.userId = uid) ∨ ∃ q, q ∈ l ∧ q.userId = uid ∧ x = f q := by
  intro l
  induction l with
  | nil => intro _ x hx; simp [updateFirst] at hx
  | cons a l ih =>
      intro huniq x hx
      by_cases ha : a.userId = uid
      · simp only [updateFirst, if_pos ha] at hx
        rcases List.mem_cons.mp hx with h | h
        · exact Or.inr ⟨a, List.mem_cons_self a l, ha, h⟩
        · have hfc : (a :: l).filter (fun q => q.userId = uid)
              = a :: l.filter (fun q => q.userId = uid) :=
            List.filter_cons_of_pos (by simpa using ha)
          have hfl : l.filter (fun q => q.userId = uid) = [] := by
            rw [hfc] at huniq
            simp only [List.length_cons] at huniq
            exact List.length_eq_zero.mp (by omega)
          have hnone : ¬ x.userId = uid := by
            intro hxu
            have : x ∈ l.filter (fun q => q.userId = uid) :=
              List.mem_filter.mpr ⟨h, by simpa using hxu⟩
            simp [hfl] at this
          exact Or.inl ⟨List.mem_cons_of_mem a h, hnone⟩
      · simp only [updateFirst, if_neg ha] at hx
        rcases List.mem_cons.mp hx with h | h
        · exact Or.inl ⟨h ▸ List.mem_cons_self a l, h ▸ ha⟩
        · have huniq2 : (l.filter (fun q => q.userId = uid)).length ≤ 1 := by
            rw [List.filter_cons_of_neg (by simpa using ha)] at huniq
            exact huniq
          rcases ih huniq2 x h with ⟨h1, h2⟩ | ⟨q, hq, hqu, hxq⟩
          · exact Or.inl ⟨List.mem_cons_of_mem a h1, h2⟩
          · exact Or.inr ⟨q, List.mem_cons_of_mem a hq, hqu, hxq⟩

theorem sumStacks_map_of (f : GamePlayer → GamePlayer)
    (hf : ∀ p, (f p).stack = p.stack) (l : List GamePlayer) :
    sumStacks (l.map f) = sumStacks l := by
  induction l with
  | nil => rfl
  | cons a l ih => simp [sumStacks_cons, hf, ih]

theorem insertSorted_perm (le : α → α → Bool) (x : α) :
    ∀ l : List α, (insertSorted le x l).Perm (x :: l) := by
  intro l
  induction l with
  | nil => simp [insertSorted]
  | cons a l ih =>
      by_cases h : le x a
      · simp [insertSorted, h]
      · simp only [insertSorted, if_neg h]
        exact ((ih.cons a).trans (List.Perm.swap x a l))

theorem sortedBy_perm (le : α → α → Bool) (l : List α) : (sortedBy le l).Perm l := by
  induction l with
  | nil => simp [sortedBy]
  | cons a l ih =>
      simp only [sortedBy, List.foldr_cons]
      exact (insertSorted_perm le a _).trans (ih.cons a)

theorem sumStacks_of_perm {l l' : List GamePlayer} (h : l.Perm l') :
    sumStacks l = sumStacks l' := by
  simp [sumStacks]
  exact List.Perm.sum_eq (h.map GamePlayer.stack)

theorem sortedBy_length (le : α → α → Bool) (l : List α) :
    (sortedBy le l).length = l.length :=
  (sortedBy_perm le l).length_eq

theorem mem_sortedBy (le : α → α → Bool) (l : List α) (x : α) :
    x ∈ sortedBy le l ↔ x ∈ l :=
  (sortedBy_perm le l).mem_iff

theorem dealHoles_map_stack :
    ∀ (ps : List GamePlayer) (deck : List Card),
      ((dealHoles ps deck).1).map GamePlayer.stack = ps.map GamePlayer.stack := by
  intro ps
  induction ps with
  | nil => intro deck; rfl
  | cons p rest ih => intro deck; simp [dealHoles, dealFrom, ih]

theorem sumStacks_dealHoles (ps : List GamePlayer) (deck : List Card) :
    sumStacks (dealHoles ps deck).1 = sumStacks ps := by
  simp [sumStacks, dealHoles_map_stack]

theorem sumStacks_modifyIdx (f : GamePlayer → GamePlayer) :
    ∀ (i : Nat) (l : List GamePlayer), i < l.length →
      sumStacks (modifyIdx f i l)
        = sumStacks l - (l.getD i defaultGamePlayer).stack
          + (f (l.getD i defaultGamePlayer)).stack := by
  intro i
  induction i with
  | zero =>
      intro l hl
      cases l with
      | nil => simp at hl
      | cons a l => simp [modifyIdx, sumStacks_cons, List.getD]; ring
  | succ i ih =>
      intro l hl
      cases l with
      | nil => simp at hl
      | cons a l =>
          simp only [modifyIdx, sumStacks_cons, List.getD_cons_succ]
          rw [ih l (by simpa using hl)]
          ring

theorem getD_modifyIdx_ne (f : GamePlayer → GamePlayer) :
    ∀ (i j : Nat) (l : List GamePlayer), j ≠ i →
      (modifyIdx f i l).getD j defaultGamePlayer = l.getD j defaultGamePlayer := by
  intro i
  induction i with
  | zero =>
      intro j l hj
      cases l with
      | nil => rfl
      | cons a l =>
          cases j with
          | zero => exact absurd rfl hj
          | succ j => simp [modifyIdx]
  | succ i ih =>
      intro j l hj
      cases l with
      | nil => rfl
      | cons a l =>
          cases j with
          | zero => simp [modifyIdx]
          | succ j =>
              simp only [modifyIdx, List.getD_cons_succ]
              exact ih j l (by omega)

theorem succ_mod_ne {n : Nat} (hn : 2 ≤ n) (k : Nat) : k % n ≠ (k + 1) % n := by
  intro h
  have hmod : k ≡ k + 1 [MOD n] := h
  rw [Nat.modEq_iff_dvd' (Nat.le_succ k)] at hmod
  have h1 : n ∣ 1 := by simpa using hmod
  have := Nat.dvd_one.mp h1
  omega

theorem evalResults_mem (comm : List Card) :
    ∀ (l : List GamePlayer) (res : List (GamePlayer × Nat × List Card)),
      evalResults comm l = some res → ∀ r ∈ res, r.1 ∈ l := by
  intro l
  induction l with
  | nil =>
      intro res h r hr
      simp only [evalResults, Option.some.injEq] at h
      subst h
      simp at hr
  | cons p rest ih =>
      intro res h r hr
      simp only [evalResults] at h
      cases hev : evaluateHand p.holeCards comm with
      | none => rw [hev] at h; simp at h
      | some hv =>
          rw [hev] at h
          cases htl : evalResults comm rest with
          | none => rw [htl] at h; simp at h
          | some tl =>
              rw [htl] at h
              simp at h
              subst h
              rcases List.mem_cons.mp hr with h1 | h1
              · subst h1; exact List.mem_cons_self p rest
              · exact List.mem_cons_of_mem p (ih tl htl r h1)

theorem award_foldl_sum (amt : Int) :
    ∀ (ws : List (GamePlayer × Nat × List Card)) (acc : List GamePlayer),
      (∀ r ∈ ws, r.1.userId ∈ acc.map GamePlayer.userId) →
      sumStacks (ws.foldl
        (fun a r =>
          updateFirst r.1.userId (fun q => { q with stack := q.stack + amt }) a) acc)
        = sumStacks acc + amt * ws.length := by
  intro ws
  induction ws with
  | nil => intro acc _; simp
  | cons w ws ih =>
      intro acc hmem
      have hw : w.1.userId ∈ acc.map GamePlayer.userId :=
        hmem w (List.mem_cons_self w ws)
      obtain ⟨q, hq, hqu⟩ := List.mem_map.mp hw
      obtain ⟨p, hp⟩ := find?_userId_isSome acc w.1.userId q hq hqu
      have hstep := sumStacks_updateFirst w.1.userId
        (fun q => { q with stack := q.stack + amt }) acc p hp
      simp only [List.foldl_cons]
      rw [ih _ ?hmem2]
      · rw [hstep]; simp; ring
      case hmem2 =>
        intro r hr
        have := hmem r (List.mem_cons_of_mem w hr)
        rwa [updateFirst_map_userId w.1.userId
          (fun q => { q with stack := q.stack + amt }) (fun q => rfl) acc]

theorem getRankValue_le (r : Rank) : getRankValue r ≤ 14 := by
  cases r <;> simp [getRankValue]

theorem rvAt_le (l : List Card) (i : Nat) : rvAt l i ≤ 14 :=
  getRankValue_le _

theorem entryRv_le (l : List (Rank × Nat)) (i : Nat) : entryRv l i ≤ 14 :=
  getRankValue_le _

theorem baseValue_le (cards : List Card) (h : cards.length = 5) :
    baseValue cards ≤ 759374 := by
  have hlen : (sortByRank cards).length = 5 := by
    rw [sortByRank, sortedBy_length]; exact h
  unfold baseValue
  match hs : sortByRank cards with
  | [a, b, c, d, e] =>
      have ha := getRankValue_le a.rank
      have hb := getRankValue_le b.rank
      have hc := getRankValue_le c.rank
      have hd := getRankValue_le d.rank
      have he := getRankValue_le e.rank
      simp [baseValueAux]
      omega
  | [] => rw [hs] at hlen; simp at hlen
  | [_] => rw [hs] at hlen; simp at hlen
  | [_, _] => rw [hs] at hlen; simp at hlen
  | [_, _, _] => rw [hs] at hlen; simp at hlen
  | [_, _, _, _] => rw [hs] at hlen; simp at hlen
  | _ :: _ :: _ :: _ :: _ :: _ :: _ => rw [hs] at hlen; simp at hlen

theorem find?_of_filter_singleton {p : GamePlayer → Bool} :
    ∀ (l : List GamePlayer) (w : GamePlayer), l.filter p = [w] → l.find? p = some w := by
  intro l
  induction l with
  | nil => intro w h; simp at h
  | cons a l ih =>
      intro w h
      by_cases ha : p a
      · rw [List.filter_cons_of_pos ha] at h
        injection h with h1 h2
        rw [List.find?_cons_of_pos _ ha, h1]
      · rw [List.filter_cons_of_neg ha] at h
        rw [List.find?_cons_of_neg _ ha]
        exact ih w h

theorem updateFirst_find? (uid : Nat) (f : GamePlayer → GamePlayer)
    (hf : ∀ q, (f q).userId = q.userId) :
    ∀ l : List GamePlayer,
      (updateFirst uid f l).find? (fun q => q.userId = uid)
        = (l.find? (fun q => q.userId = uid)).map f := by
  intro l
  induction l with
  | nil => rfl
  | cons a l ih =>
      by_cases ha : a.userId = uid
      · simp only [updateFirst, if_pos ha]
        rw [List.find?_cons_of_pos _ (by simp [hf, ha]),
            List.find?_cons_of_pos _ (by simpa using ha)]
        rfl
      · simp only [updateFirst, if_neg ha]
        rw [List.find?_cons_of_neg _ (by simpa using ha),
            List.find?_cons_of_neg _ (by simpa using ha)]
        exact ih

theorem handleFold_chipSum (s : HandState) (uid : Nat) (s1 : HandState)
    (h : handleFold s uid = some s1) : chipSum s1 = chipSum s := by
  unfold handleFold at h
  cases hf : s.players.find? (fun q => q.userId = uid) with
  | none => rw [hf] at h; simp at h
  | some p =>
      rw [hf] at h; dsimp only at h
      injection h with h1
      subst h1
      simp only [chipSum]
      rw [sumStacks_updateFirst _ _ _ p hf]
      simp

theorem handleCheck_chipSum (s : HandState) (uid : Nat) (s1 : HandState)
    (h : handleCheck s uid = some s1) : chipSum s1 = chipSum s := by
  unfold handleCheck at h
  cases hf : s.players.find? (fun q => q.userId = uid) with
  | none => rw [hf] at h; simp at h
  | some p =>
      rw [hf] at h; dsimp only at h
      by_cases hb : p.currentBet < s.currentBet
      · rw [if_pos hb] at h; simp at h
      · rw [if_neg hb] at h
        injection h with h1
        rw [h1]

theorem handleCall_chipSum (s : HandState) (uid : Nat) (s1 : HandState)
    (h : handleCall s uid = some s1) : chipSum s1 = chipSum s := by
  unfold handleCall at h
  cases hf : s.players.find? (fun q => q.userId = uid) with
  | none => rw [hf] at h; simp at h
  | some p =>
      rw [hf] at h; dsimp only at h
      by_cases hc : s.currentBet - p.currentBet ≤ 0
      · rw [if_pos hc] at h; simp at h
      · rw [if_neg hc] at h
        injection h with h1
        subst h1
        simp only [chipSum]
        rw [sumStacks_updateFirst _ _ _ p hf]
        simp

theorem handleRaise_chipSum (s : HandState) (uid : Nat) (amt : Int) (s1 : HandState)
    (h : handleRaise s uid amt = some s1) : chipSum s1 = chipSum s := by
  unfold handleRaise at h
  cases hf : s.players.find? (fun q => q.userId = uid) with
  | none => rw [hf] at h; simp at h
  | some p =>
      rw [hf] at h; dsimp only at h
      by_cases h1 : s.currentBet - p.currentBet + amt > p.stack
      · rw [if_pos h1] at h; simp at h
      · rw [if_neg h1] at h
        by_cases h2 : amt < s.minRaise ∧ p.stack > s.currentBet - p.currentBet + amt
        · rw [if_pos h2] at h; simp at h
        · rw [if_neg h2] at h
          injection h with h3
          subst h3
          simp only [chipSum]
          rw [sumStacks_updateFirst _ _ _ p hf]
          simp

theorem handleAllIn_chipSum (s : HandState) (uid : Nat) (s1 : HandState)
    (h : handleAllIn s uid = some s1) : chipSum s1 = chipSum s := by
  unfold handleAllIn at h
  cases hf : s.players.find? (fun q => q.userId = uid) with
  | none => rw [hf] at h; simp at h
  | some p =>
      rw [hf] at h; dsimp only at h
      injection h with h1
      subst h1
      simp only [chipSum]
      rw [sumStacks_updateFirst _ _ _ p hf]
      simp

theorem handleAction_chipSum (s : HandState) (uid : Nat) (act : PlayerAction)
    (s' : HandState) (h : handleAction s uid act = some s') : chipSum s' = chipSum s := by
  unfold handleAction at h
  cases hg : s.players.get? s.currentPlayerIndex with
  | none => rw [hg] at h; simp at h
  | some cp =>
      rw [hg] at h; dsimp only at h
      by_cases hu : cp.userId ≠ uid
      · rw [if_pos hu] at h; simp at h
      · rw [if_neg hu] at h
        cases hf : s.players.find? (fun p => p.userId = uid) with
        | none => rw [hf] at h; simp at h
        | some p0 =>
            rw [hf] at h; dsimp only at h
            cases act with
            | fold =>
                dsimp only at h
                cases hr : handleFold s uid with
                | none => rw [hr] at h; simp at h
                | some s1 =>
                    rw [hr] at h; dsimp only at h
                    injection h with h1
                    subst h1
                    simpa [chipSum] using handleFold_chipSum s uid s1 hr
            | check =>
                dsimp only at h
                cases hr : handleCheck s uid with
                | none => rw [hr] at h; simp at h
                | some s1 =>
                    rw [hr] at h; dsimp only at h
                    injection h with h1
                    subst h1
                    simpa [chipSum] using handleCheck_chipSum s uid s1 hr
            | call =>
                dsimp only at h
                cases hr : handleCall s uid with
                | none => rw [hr] at h; simp at h
                | some s1 =>
                    rw [hr] at h; dsimp only at h
                    injection h with h1
                    subst h1
                    simpa [chipSum] using handleCall_chipSum s uid s1 hr
            | raise amount =>
                dsimp only at h
                cases hr : handleRaise s uid amount with
                | none => rw [hr] at h; simp at h
                | some s1 =>
                    rw [hr] at h; dsimp only at h
                    injection h with h1
                    subst h1
                    simpa [chipSum] using handleRaise_chipSum s uid amount s1 hr
            | allIn =>
                dsimp only at h
                cases hr : handleAllIn s uid with
                | none => rw [hr] at h; simp at h
                | some s1 =>
                    rw [hr] at h; dsimp only at h
                    split at h <;>
                    · injection h with h1
                      subst h1
                      simpa [chipSum] using handleAllIn_chipSum s uid s1 hr

theorem advancePhase_cont_chipSum (cfg : RoomConfig) (s : HandState) (s2 : HandState)
    (h : advancePhase cfg s = some (.cont s2)) : chipSum s2 = chipSum s := by
  unfold advancePhase at h
  by_cases h4 : 4 ≤ phaseIndex s.phase
  · rw [if_pos h4] at h
    cases hs : showdown { s with
        acted := [], lastAggressorId := none,
        players := s.players.map (fun p => { p with currentBet := 0 }),
        currentBet := 0, minRaise := cfg.bigBlind } with
    | none => rw [hs] at h; simp at h
    | some pr => rw [hs] at h; simp at h
  · rw [if_neg h4] at h
    by_cases hsd : phaseOfIndex (phaseIndex s.phase + 1) = Phase.showdownPhase
    · rw [if_pos hsd] at h
      cases hs : showdown { s with
          phase := phaseOfIndex (phaseIndex s.phase + 1),
          acted := [], lastAggressorId := none,
          players := s.players.map (fun p => { p with currentBet := 0 }),
          currentBet := 0, minRaise := cfg.bigBlind } with
      | none => rw [hs] at h; simp at h
      | some pr => rw [hs] at h; simp at h
    · rw [if_neg hsd] at h
      dsimp only at h
      cases hfa : findActiveStart
          ((s.players.map (fun p => { p with currentBet := 0 }))) s.dealerIndex with
      | none =>
          rw [hfa] at h; simp at h
      | some startIndex =>
          rw [hfa] at h
          dsimp only at h
          split at h
          · cases hs2 : showdown _ with
            | none => rw [hs2] at h; simp at h
            | some pr => rw [hs2] at h; simp at h
          · injection h with h1
            injection h1 with h2
            subst h2
            simp only [chipSum]
            rw [sumStacks_map_of (fun p => { p with currentBet := 0 }) (fun p => rfl)]

theorem checkForWinner_sum (s : HandState) (ps : List GamePlayer) (r : RoundResult)
    (h : checkForWinner s = some (ps, r)) : sumStacks ps = chipSum s := by
  unfold checkForWinner at h
  cases hfl : s.players.filter (fun p => ¬ p.status = .folded) with
  | nil => rw [hfl] at h; simp at h
  | cons w tl =>
      cases tl with
      | cons b tl2 => rw [hfl] at h; simp at h
      | nil =>
          rw [hfl] at h
          dsimp only at h
          injection h with h1
          injection h1 with hps hr
          subst hps
          have hw : w ∈ s.players.filter (fun p => ¬ p.status = .folded) := by
            rw [hfl]; exact List.mem_cons_self w []
          have hwmem : w ∈ s.players := List.mem_of_mem_filter hw
          obtain ⟨p0, hp0⟩ := find?_userId_isSome s.players w.userId w hwmem rfl
          rw [sumStacks_updateFirst _ _ _ p0 hp0]
          simp only [chipSum]
          ring

theorem showdown_sum (s : HandState) (ps : List GamePlayer) (r : RoundResult)
    (h : showdown s = some (ps, r)) :
    sumStacks ps
      = sumStacks s.players
        + Int.fdiv s.pot (r.winners.length : Int) * (r.winners.length : Int) := by
  unfold showdown at h
  dsimp only at h
  cases hev : evalResults s.communityCards
      (s.players.filter (fun p => ¬ p.status = .folded)) with
  | none => rw [hev] at h; simp at h
  | some results =>
      rw [hev] at h
      dsimp only at h
      cases hsort : sortedBy (fun a b => b.2.1 ≤ a.2.1) results with
      | nil => rw [hsort] at h; simp at h
      | cons top rest =>
          rw [hsort] at h
          dsimp only at h
          injection h with h1
          injection h1 with hps hr
          subst hps
          have hwin : r.winners.length
              = ((top :: rest).filter (fun q => q.2.1 = top.2.1)).length := by
            rw [← hr]
            simp
          rw [hwin]
          apply award_foldl_sum
          intro w hwmem
          have hw1 : w ∈ top :: rest := List.mem_of_mem_filter hwmem
          have hw2 : w ∈ results := by
            have := (sortedBy_perm (fun a b => b.2.1 ≤ a.2.1) results).mem_iff (a := w)
            rw [hsort] at this
            exact this.mp hw1
          have hw3 : w.1 ∈ s.players.filter (fun p => ¬ p.status = .folded) :=
        evalResults_mem s.communityCards _ results hev w hw2
          have hw4 : w.1 ∈ s.players := List.mem_of_mem_filter hw3
          exact List.mem_map_of_mem GamePlayer.userId hw4

theorem modifyIdx_length (f : α → α) : ∀ (i : Nat) (l : List α),
    (modifyIdx f i l).length = l.length := by
  intro i
  induction i with
  | zero => intro l; cases l <;> simp [modifyIdx]
  | succ i ih => intro l; cases l <;> simp [modifyIdx, ih]

theorem dealHoles_length (ps : List GamePlayer) (deck : List Card) :
    (dealHoles ps deck).1.length = ps.length := by
  have h := congrArg List.length (dealHoles_map_stack ps deck)
  simpa using h

theorem startNewHand_chipSum (cfg : RoomConfig) (rps : List GamePlayer)
    (ldi : Int) (deck : List Card) (s : HandState)
    (h : startNewHand cfg rps ldi deck = some s) :
    chipSum s = sumStacks (rps.filter (fun p => p.stack > 0)) := by
  unfold startNewHand at h
  by_cases hn : (rps.filter (fun p => p.stack > 0)).length < 2
  · rw [if_pos hn] at h; simp at h
  · rw [if_neg hn] at h
    dsimp only at h
    rcases hde : dealHoles (sortBySeat (rps.filter (fun p => p.stack > 0))) deck with
      ⟨dealt, deckAfter⟩
    rw [hde] at h
    dsimp only at h
    injection h with h1
    subst h1
    have hlenA : 2 ≤ (rps.filter (fun p => p.stack > 0)).length := by omega
    have hlenSP : (sortBySeat (rps.filter (fun p => p.stack > 0))).length
        = (rps.filter (fun p => p.stack > 0)).length := by
      unfold sortBySeat
      exact sortedBy_length _ _
    have hlenD : dealt.length = (rps.filter (fun p => p.stack > 0)).length := by
      have := dealHoles_length (sortBySeat (rps.filter (fun p => p.stack > 0))) deck
      rw [hde] at this
      simpa [hlenSP] using this
    have hnpos : (0 : Int) < ((sortBySeat (rps.filter (fun p => p.stack > 0))).length : Int) := by
      omega
    have hdlt : (((ldi + 1).emod ((sortBySeat (rps.filter (fun p => p.stack > 0))).length : Int)).toNat)
        < (sortBySeat (rps.filter (fun p => p.stack > 0))).length := by
      have h1 : 0 ≤ (ldi + 1).emod
          ((sortBySeat (rps.filter (fun p => p.stack > 0))).length : Int) :=
        Int.emod_nonneg (ldi + 1) (by omega)
      have h2 : (ldi + 1).emod
            ((sortBySeat (rps.filter (fun p => p.stack > 0))).length : Int)
          < ((sortBySeat (rps.filter (fun p => p.stack > 0))).length : Int) :=
        Int.emod_lt_of_pos (ldi + 1) hnpos
      omega
    set n := (sortBySeat (rps.filter (fun p => p.stack > 0))).length with hndef
    set d := ((ldi + 1).emod (n : Int)).toNat with hddef
    have hsbi : (if n = 2 then d else (d + 1) % n) < n := by
      by_cases h2 : n = 2
      · simpa [h2] using hdlt
      · simp only [if_neg h2]
        exact Nat.mod_lt _ (by omega)
    have hbbi : (if n = 2 then (d + 1) % n else (d + 2) % n) < n := by
      by_cases h2 : n = 2
      · simp only [if_pos h2]
        exact Nat.mod_lt _ (by omega)
      · simp only [if_neg h2]
        exact Nat.mod_lt _ (by omega)
    have hne : (if n = 2 then d else (d + 1) % n)
        ≠ (if n = 2 then (d + 1) % n else (d + 2) % n) := by
      by_cases h2 : n = 2
      · simp only [if_pos h2]
        rw [h2] at hdlt
        rw [h2]
        omega
      · simp only [if_neg h2]
        exact succ_mod_ne (by omega) (d + 1)
    set sbI := if n = 2 then d else (d + 1) % n with hsbdef
    set bbI := if n = 2 then (d + 1) % n else (d + 2) % n with hbbdef
    simp only [chipSum]
    rw [sumStacks_map_of (fun p =>
      { p with
        isDealer := p.seatNumber = (dealt.getD d defaultGamePlayer).seatNumber,
        isSmallBlind := p.seatNumber = (dealt.getD sbI defaultGamePlayer).seatNumber,
        isBigBlind := p.seatNumber = (dealt.getD bbI defaultGamePlayer).seatNumber })
      (fun p => rfl)]
    have hlen1 : (modifyIdx (postBlind cfg.smallBlind) sbI dealt).length = dealt.length :=
      modifyIdx_length _ _ _
    rw [sumStacks_modifyIdx (postBlind cfg.bigBlind) bbI _ (by omega)]
    rw [getD_modifyIdx_ne (postBlind cfg.smallBlind) sbI bbI dealt (by omega)]
    rw [sumStacks_modifyIdx (postBlind cfg.smallBlind) sbI dealt (by omega)]
    have hsum : sumStacks dealt = sumStacks (rps.filter (fun p => p.stack > 0)) := by
      have h1 : sumStacks dealt
          = sumStacks (sortBySeat (rps.filter (fun p => p.stack > 0))) := by
        have := sumStacks_dealHoles (sortBySeat (rps.filter (fun p => p.stack > 0))) deck
        rw [hde] at this
        exact this
      rw [h1]
      exact sumStacks_of_perm (sortedBy_perm _ _)
    rw [hsum]
    simp only [postBlind]
    omega

/-! ## Claim C1 -/

/-- C1 (amended): the table chip sum (Σ player stacks + pot) equals the
participants' stack sum at hand start and is preserved by every accepted
player action (fold, check, call, raise, all-in), by street rollover, and
by the fold-to-one pot award; at showdown each of the k top-tied winners
receives ⌊pot/k⌋, so the sum drops by pot mod k — conservation holds there
exactly when k divides the pot (in particular for a single winner) and
fails by the discarded remainder on uneven splits. -/
theorem c1_chip_conservation :
    (∀ cfg rps ldi deck s, startNewHand cfg rps ldi deck = some s →
       chipSum s = sumStacks (rps.filter (fun p => p.stack > 0))) ∧
    (∀ s uid act s', handleAction s uid act = some s' → chipSum s' = chipSum s) ∧
    (∀ cfg s s2, advancePhase cfg s = some (.cont s2) → chipSum s2 = chipSum s) ∧
    (∀ s ps r, checkForWinner s = some (ps, r) → sumStacks ps = chipSum s) ∧
    (∀ s ps r, showdown s = some (ps, r) →
       sumStacks ps + Int.fmod s.pot (r.winners.length : Int) = chipSum s) := by
  refine ⟨startNewHand_chipSum, handleAction_chipSum, advancePhase_cont_chipSum,
    checkForWinner_sum, ?_⟩
  intro s ps r h
  rw [showdown_sum s ps r h]
  simp only [chipSum]
  have hm := Int.fdiv_add_fmod s.pot (r.winners.length : Int)
  have hc : Int.fdiv s.pot (r.winners.length : Int) * (r.winners.length : Int)
      = (r.winners.length : Int) * Int.fdiv s.pot (r.winners.length : Int) := by ring
  omega

/-- Witness for C1: the conservation conjuncts applied to a concrete
heads-up hand and a concrete accepted fold. -/
theorem c1_chip_conservation_witness :
    (∃ s, startNewHand demoCfg [mkPlayer 1 0 100, mkPlayer 2 1 100] (-1) demoDeck = some s ∧
       chipSum s = sumStacks ([mkPlayer 1 0 100, mkPlayer 2 1 100].filter (fun p => p.stack > 0)) ∧
       ∃ s', handleAction s 1 .fold = some s' ∧ chipSum s' = chipSum s) := by
  have h0 : (startNewHand demoCfg [mkPlayer 1 0 100, mkPlayer 2 1 100] (-1) demoDeck).isSome
      = true := by decide
  obtain ⟨s, hs⟩ := Option.isSome_iff_exists.mp h0
  have hbind : ((startNewHand demoCfg [mkPlayer 1 0 100, mkPlayer 2 1 100] (-1) demoDeck).bind
      (fun t => handleAction t 1 .fold)).isSome = true := by decide
  rw [hs] at hbind
  simp only [Option.bind] at hbind
  obtain ⟨s', hs'⟩ := Option.isSome_iff_exists.mp hbind
  exact ⟨s, hs, c1_chip_conservation.1 demoCfg _ (-1) demoDeck s hs,
    s', hs', c1_chip_conservation.2.1 s 1 .fold s' hs'⟩

/-- Counterexample for C1 as stated: a reachable three-player hand
(stacks 100/100/100, blinds 10/20) reaches showdown with pot 123 and two
tied winners; the final stack sum is 299, one chip below the 300 at hand
start — the split discards the remainder. -/
theorem c1_counterexample :
    endedSummary c1Run = some (299, 123, 2) ∧
    sumStacks [mkPlayer 1 0 100, mkPlayer 2 1 100, mkPlayer 3 2 100] = 300 := by
  constructor
  · decide
  · decide

/-! ## Claim C2 -/

theorem handleAction_allIn_spec (s : HandState) (uid : Nat) (s' : HandState)
    (h : handleAction s uid .allIn = some s') :
    ∃ p, s.players.find? (fun q => q.userId = uid) = some p ∧
      s'.players = updateFirst uid
        (fun q => { q with currentBet := q.currentBet + p.stack, stack := 0, status := .allIn })
        s.players ∧
      s'.currentBet
        = (if p.currentBet + p.stack > s.currentBet then p.currentBet + p.stack
           else s.currentBet) ∧
      s'.acted = (if s.acted.contains uid then s.acted else uid :: s.acted) ∧
      s.minRaise ≤ s'.minRaise := by
  unfold handleAction at h
  cases hg : s.players.get? s.currentPlayerIndex with
  | none => rw [hg] at h; simp at h
  | some cp =>
      rw [hg] at h; dsimp only at h
      by_cases hu : cp.userId ≠ uid
      · rw [if_pos hu] at h; simp at h
      · rw [if_neg hu] at h
        cases hf : s.players.find? (fun p => p.userId = uid) with
        | none => rw [hf] at h; simp at h
        | some p0 =>
            rw [hf] at h
            dsimp only at h
            unfold handleAllIn at h
            rw [hf] at h
            dsimp only at h
            rw [updateFirst_find? uid
              (fun q => { q with currentBet := q.currentBet + p0.stack, stack := 0,
                                 status := .allIn }) (fun q => rfl) s.players, hf] at h
            simp only [Option.map_some'] at h
            have hagg : (decide (p0.currentBet + p0.stack >
                (if p0.currentBet + p0.stack > s.currentBet then p0.currentBet + p0.stack
                 else s.currentBet))) = false := by
              by_cases hx : p0.currentBet + p0.stack > s.currentBet
              · simp [hx]
              · simp [if_neg hx]
                omega
            simp only [hagg, Bool.false_eq_true, if_false] at h
            injection h with h1
            subst h1
            refine ⟨p0, rfl, rfl, rfl, rfl, ?_⟩
            dsimp only
            by_cases hx : p0.currentBet + p0.stack > s.currentBet
            · rw [if_pos hx]
              by_cases hy : p0.currentBet + p0.stack - s.currentBet > s.minRaise
              · rw [if_pos hy]; omega
              · rw [if_neg hy]
            · rw [if_neg hx]

/-- C2 (amended): an accepted all-in never clears the acted-this-round
set — every player already recorded as having acted stays recorded (the
source's re-open test reads the bets after `handleAllIn` already lifted
the table bet, so it never fires) — and when the all-in does not exceed
the table bet the bet is unchanged and the round can close without
further action from players who have acted and matched; when a short
all-in raises the table bet, however, those players no longer match and
must act again before the round closes (see the counterexample). -/
theorem c2_short_allin (s : HandState) (uid : Nat) (s' : HandState)
    (h : handleAction s uid .allIn = some s') :
    (∀ x ∈ s.acted, x ∈ s'.acted) ∧
    (∀ p, s.players.find? (fun q => q.userId = uid) = some p →
      p.currentBet + p.stack ≤ s.currentBet →
      s'.currentBet = s.currentBet ∧
      ((s.players.filter (fun q => q.userId = uid)).length ≤ 1 →
       (∀ q ∈ s.players, q.status = .active → ¬ q.userId = uid →
          s.acted.contains q.userId = true ∧ q.currentBet = s.currentBet) →
       isBettingRoundComplete s' = true)) := by
  obtain ⟨p0, hf, hpl, hcb, hacted, _⟩ := handleAction_allIn_spec s uid s' h
  have hactedSub : ∀ x ∈ s.acted, x ∈ s'.acted := by
    intro x hx
    rw [hacted]
    by_cases hc : s.acted.contains uid
    · rw [if_pos hc]; exact hx
    · rw [if_neg hc]; exact List.mem_cons_of_mem _ hx
  refine ⟨hactedSub, ?_⟩
  intro p hp hshort
  rw [hp] at hf
  injection hf with hf1
  subst hf1
  have hcb2 : s'.currentBet = s.currentBet := by
    rw [hcb, if_neg (by omega)]
  refine ⟨hcb2, ?_⟩
  intro huniq hall
  unfold isBettingRoundComplete
  by_cases hA : (s'.players.filter (fun p => p.status = .active)).length ≤ 1
  · rw [if_pos hA]
  · rw [if_neg hA]
    have hmem : ∀ q ∈ s'.players.filter (fun p => p.status = .active),
        s'.acted.contains q.userId = true ∧ q.currentBet = s'.currentBet := by
      intro q hq
      have hq1 : q ∈ s'.players := List.mem_of_mem_filter hq
      have hq2 : q.status = .active := by
        have := List.of_mem_filter hq
        simpa using this
      rw [hpl] at hq1
      rcases updateFirst_mem_cases uid _ s.players huniq q hq1 with ⟨hq3, hq4⟩ | ⟨w, _, _, hqw⟩
      · obtain ⟨hc, hb⟩ := hall q hq3 hq2 hq4
        constructor
        · rw [hacted]
          by_cases hcu : s.acted.contains uid
          · rw [if_pos hcu]; exact hc
          · rw [if_neg hcu]
            simp only [List.contains_cons]
            have : q.userId ∈ s.acted := by simpa using hc
            simp [this]
        · rw [hcb2]; exact hb
      · rw [hqw] at hq2
        simp at hq2
    rw [Bool.and_eq_true]
    constructor
    · apply List.all_eq_true.mpr
      intro q hq
      exact (hmem q hq).1
    · apply List.all_eq_true.mpr
      intro q hq
      simpa using (hmem q hq).2

/-- Concrete state for the C2 witness: three active players, table bet 20,
players 1 and 2 have acted and matched, player 3 holds 5 chips behind a
15-chip bet (all-in exactly reaches the table bet). -/
def c2WitState : HandState :=
  { phase := .preflop, pot := 55, communityCards := [],
    currentPlayerIndex := 2, dealerIndex := 0, smallBlindIndex := 1, bigBlindIndex := 2,
    currentBet := 20, minRaise := 20,
    players :=
      [⟨1, 0, 80, 20, .active, [], true, false, false⟩,
       ⟨2, 1, 80, 20, .active, [], false, true, false⟩,
       ⟨3, 2, 5, 15, .active, [], false, false, true⟩],
    acted := [1, 2], lastAggressorId := none, deck := [] }

/-- Witness for C2: at `c2WitState`, player 3's all-in for the last 5 chips
keeps players 1 and 2 in the acted set, leaves the table bet at 20, and
the betting round closes. -/
theorem c2_short_allin_witness :
    ∃ s', handleAction c2WitState 3 .allIn = some s' ∧
      (∀ x ∈ c2WitState.acted, x ∈ s'.acted) ∧
      s'.currentBet = c2WitState.currentBet ∧
      isBettingRoundComplete s' = true := by
  have h0 : (handleAction c2WitState 3 .allIn).isSome = true := by decide
  obtain ⟨s', hs⟩ := Option.isSome_iff_exists.mp h0
  have hspec := c2_short_allin c2WitState 3 s' hs
  have h2 := hspec.2 ⟨3, 2, 5, 15, .active, [], false, false, true⟩ (by decide) (by decide)
  exact ⟨s', hs, hspec.1, h2.1, h2.2 (by decide) (by decide)⟩

/-- Counterexample for C2 as stated: after big blind player 3 (stack 25,
20 posted) goes all-in for 5 more — short of the 20 minimum raise — the
acted set still holds players 1 and 2, yet the round is NOT complete: the
table bet rose to 25, and action passes back to player 1 (index 0), so the
players who had already acted and matched ARE required to act again. -/
theorem c2_counterexample : c2Probe c2Run = some (true, true, false, 25, 0) := by decide

/-! ## Claim C4 -/

/-- C4 (amended): `handleRaise` assigns `minRaise := amount`
unconditionally on every accepted raise — so a legal short all-in raise
(amount = stack − toCall below the previous minRaise) DECREASES
`minRaise` — while the separate all-in action never decreases it (its
update is guarded by `raiseAmount > minRaise`). -/
theorem c4_minraise_update :
    (∀ s uid amount s', handleRaise s uid amount = some s' → s'.minRaise = amount) ∧
    (∀ s uid s', handleAllIn s uid = some s' → s.minRaise ≤ s'.minRaise) := by
  constructor
  · intro s uid amount s' h
    unfold handleRaise at h
    cases hf : s.players.find? (fun q => q.userId = uid) with
    | none => rw [hf] at h; simp at h
    | some p =>
        rw [hf] at h; dsimp only at h
        by_cases h1 : s.currentBet - p.currentBet + amount > p.stack
        · rw [if_pos h1] at h; simp at h
        · rw [if_neg h1] at h
          by_cases h2 : amount < s.minRaise ∧ p.stack > s.currentBet - p.currentBet + amount
          · rw [if_pos h2] at h; simp at h
          · rw [if_neg h2] at h
            injection h with h3
            rw [← h3]
  · intro s uid s' h
    unfold handleAllIn at h
    cases hf : s.players.find? (fun q => q.userId = uid) with
    | none => rw [hf] at h; simp at h
    | some p =>
        rw [hf] at h; dsimp only at h
        injection h with h1
        rw [← h1]
        dsimp only
        by_cases hx : p.currentBet + p.stack > s.currentBet
        · rw [if_pos hx]
          by_cases hy : p.currentBet + p.stack - s.currentBet > s.minRaise
          · rw [if_pos hy]; omega
          · rw [if_neg hy]
        · rw [if_neg hx]

/-- Concrete state for the C4 witness: table bet 20, minRaise 20; player 1
(stack 15 behind a 10-chip bet) can raise all-in by 5, player 2 has a
full stack. -/
def c4WitState : HandState :=
  { phase := .preflop, pot := 30, communityCards := [],
    currentPlayerIndex := 0, dealerIndex := 0, smallBlindIndex := 0, bigBlindIndex := 1,
    currentBet := 20, minRaise := 20,
    players :=
      [⟨1, 0, 15, 10, .active, [], true, true, false⟩,
       ⟨2, 1, 80, 20, .active, [], false, false, true⟩],
    acted := [2], lastAggressorId := none, deck := [] }

/-- Witness for C4: at `c4WitState`, the accepted raise by 5 sets
`minRaise` to 5, and player 2's all-in raises it to 80 (never below 20). -/
theorem c4_minraise_update_witness :
    (∃ s', handleRaise c4WitState 1 5 = some s' ∧ s'.minRaise = 5) ∧
    (∃ t', handleAllIn c4WitState 2 = some t' ∧ c4WitState.minRaise ≤ t'.minRaise) := by
  constructor
  · have h0 : (handleRaise c4WitState 1 5).isSome = true := by decide
    obtain ⟨s', hs⟩ := Option.isSome_iff_exists.mp h0
    exact ⟨s', hs, c4_minraise_update.1 c4WitState 1 5 s' hs⟩
  · have h0 : (handleAllIn c4WitState 2).isSome = true := by decide
    obtain ⟨t', ht⟩ := Option.isSome_iff_exists.mp h0
    exact ⟨t', ht, c4_minraise_update.2 c4WitState 2 t' ht⟩

/-- Counterexample for C4 as stated: from a live heads-up hand (blinds
10/20, minRaise 20), the dealer's legal short all-in raise by 5 is
accepted through `handleAction` and `minRaise` DROPS from 20 to 5 — the
claim said a legal raise below the previous minRaise leaves it
unchanged. -/
theorem c4_counterexample : c4Probe = some (20, 5) ∧ (5 : Int) < 20 := by decide

/-! ## Claim C5 -/

/-- C5: the gateway's close handler for an authenticated, room-bound
socket whose room has seated players invokes
`GameRoom.handlePlayerDisconnect`, but `class GameRoom` defines no method
of that name, so the handler throws a TypeError instead of recording the
session as detached on the player's record. -/
theorem c5_disconnect_missing_method :
    "handlePlayerDisconnect" ∈ handleDisconnectInvokedMethods ∧
    "handlePlayerDisconnect" ∉ gameRoomMethods := by decide

/-! ## Claim C6 -/

/-- C6: whenever exactly one non-folded player remains (user ids unique),
`checkForWinner` awards the ENTIRE pot to that player's stack, and the
broadcast `hand_result` lists exactly that player with amount = pot,
carries no `revealedHands`, no `communityCards`, and no hole cards (the
winner entry's hand field is empty); every other player is untouched. -/
theorem c6_fold_to_one (s : HandState) (w : GamePlayer)
    (hone : s.players.filter (fun p => ¬ p.status = .folded) = [w])
    (huniq : s.players.filter (fun p => p.userId = w.userId) = [w]) :
    ∃ ps r, checkForWinner s = some (ps, r) ∧
      r.winners = [⟨w.userId, s.pot, none⟩] ∧
      r.pot = s.pot ∧ r.revealedHands = none ∧ r.communityCards = none ∧
      sumStacks ps = sumStacks s.players + s.pot ∧
      (∀ q ∈ ps, q.userId = w.userId → q.stack = w.stack + s.pot) ∧
      (∀ q ∈ s.players, ¬ q.userId = w.userId → q ∈ ps) := by
  have hfind : s.players.find? (fun p => p.userId = w.userId) = some w :=
    find?_of_filter_singleton s.players w huniq
  unfold checkForWinner
  rw [hone]
  dsimp only
  refine ⟨_, _, rfl, rfl, rfl, rfl, rfl, ?_, ?_, ?_⟩
  · rw [sumStacks_updateFirst _ _ _ w hfind]
    dsimp only
    ring
  · intro q hq hqi
    have hlen : (s.players.filter (fun q => q.userId = w.userId)).length ≤ 1 := by
      rw [huniq]; simp
    rcases updateFirst_mem_cases w.userId _ s.players hlen q hq with
      ⟨_, hne⟩ | ⟨z, hz, hzu, hqz⟩
    · exact absurd hqi hne
    · have hzw : z ∈ s.players.filter (fun q => q.userId = w.userId) :=
        List.mem_filter.mpr ⟨hz, by simpa using hzu⟩
      rw [huniq] at hzw
      simp at hzw
      subst hzw
      rw [hqz]
  · intro q hq hne
    exact mem_updateFirst_of_userId_ne w.userId _ s.players q hq hne

/-- Concrete state for the C6 witness: spec scenario 1 after the dealer's
fold — pot 30, player 1 folded with stack 990, player 2 live with 980. -/
def c6WitState : HandState :=
  { phase := .preflop, pot := 30, communityCards := [],
    currentPlayerIndex := 1, dealerIndex := 0, smallBlindIndex := 0, bigBlindIndex := 1,
    currentBet := 20, minRaise := 20,
    players :=
      [⟨1, 0, 990, 10, .folded, [], true, true, false⟩,
       ⟨2, 1, 980, 20, .active, [], false, false, true⟩],
    acted := [], lastAggressorId := none, deck := [] }

/-- Witness for C6: at `c6WitState`, player 2 is the sole non-folded
player and receives the whole 30-chip pot; the result has no
revealedHands. -/
theorem c6_fold_to_one_witness :
    ∃ ps r, checkForWinner c6WitState = some (ps, r) ∧
      r.winners = [⟨2, 30, none⟩] ∧
      r.pot = 30 ∧ r.revealedHands = none ∧ r.communityCards = none ∧
      sumStacks ps = sumStacks c6WitState.players + 30 ∧
      (∀ q ∈ ps, q.userId = 2 → q.stack = 980 + 30) ∧
      (∀ q ∈ c6WitState.players, ¬ q.userId = 2 → q ∈ ps) := by
  exact c6_fold_to_one c6WitState ⟨2, 1, 980, 20, .active, [], false, false, true⟩
    (by decide) (by decide)

/-! ## Claim C7 -/

/-- C7: the straight branch handles the wheel correctly — unsuited
A-2-3-4-5 is a 5-high straight (value 5005000000), below the unsuited
6-high straight (5006000000) — but the straight-flush branch keys the
wheel by its ace-high `baseValue`: the suited wheel gets 9000726572,
ABOVE the suited 6-high straight flush at 9000321572, so the code ranks
the 5-high straight flush above the 6-high, contradicting the claim that
the wheel ranks below 6-high whether or not the cards share a suit. -/
theorem c7_wheel_straight_flush_bug :
    evaluateFiveCards
        [⟨.hearts, .rA⟩, ⟨.hearts, .r5⟩, ⟨.diamonds, .r4⟩, ⟨.hearts, .r3⟩, ⟨.hearts, .r2⟩]
      = some (.straight, 5005000000) ∧
    evaluateFiveCards
        [⟨.hearts, .r6⟩, ⟨.clubs, .r5⟩, ⟨.hearts, .r4⟩, ⟨.hearts, .r3⟩, ⟨.hearts, .r2⟩]
      = some (.straight, 5006000000) ∧
    (5005000000 : Nat) < 5006000000 ∧
    evaluateFiveCards
        [⟨.spades, .rA⟩, ⟨.spades, .r5⟩, ⟨.spades, .r4⟩, ⟨.spades, .r3⟩, ⟨.spades, .r2⟩]
      = some (.straightFlush, 9000726572) ∧
    evaluateFiveCards
        [⟨.hearts, .r6⟩, ⟨.hearts, .r5⟩, ⟨.hearts, .r4⟩, ⟨.hearts, .r3⟩, ⟨.hearts, .r2⟩]
      = some (.straightFlush, 9000321572) ∧
    (9000321572 : Nat) < 9000726572 := by decide

/-! ## Claim C9 -/

/-- C9 (amended): on an existing, non-closed room (and an existing user),
the join route answers out-of-range buy-ins with 400 `Buy-in must be
between <min> and <max>`; then — BEFORE the buy-in/balance comparison —
a wallet below 3·bigBlind gets 400 `You need at least <3·bigBlind> chips
(3 big blinds) to join`; only past that check does a balance below the
buy-in get 400 `Insufficient balance`.  In every failure case the wallet,
the seat rows and the transaction ledger are returned unchanged. -/
theorem c9_join_validation (room : RoomRow) (uid : Nat) (st : LobbyState)
    (seatNumber buyIn : Int) (hopen : room.closed = false) :
    ((buyIn < room.minBuyIn ∨ buyIn > room.maxBuyIn) →
      joinRoom room uid st seatNumber buyIn
        = (.err 400 ("Buy-in must be between " ++ toString room.minBuyIn ++ " and "
            ++ toString room.maxBuyIn), st)) ∧
    (room.minBuyIn ≤ buyIn → buyIn ≤ room.maxBuyIn → st.balance < room.bigBlind * 3 →
      joinRoom room uid st seatNumber buyIn
        = (.err 400 ("You need at least " ++ toString (room.bigBlind * 3)
            ++ " chips (3 big blinds) to join"), st)) ∧
    (room.minBuyIn ≤ buyIn → buyIn ≤ room.maxBuyIn → room.bigBlind * 3 ≤ st.balance →
      st.balance < buyIn →
      joinRoom room uid st seatNumber buyIn = (.err 400 "Insufficient balance", st)) := by
  unfold joinRoom
  simp only [hopen, Bool.false_eq_true, if_false]
  refine ⟨?_, ?_, ?_⟩
  · intro hrange
    rw [if_pos hrange]
  · intro h1 h2 h3
    rw [if_neg (by omega)]
    rw [if_pos h3]
  · intro h1 h2 h3 h4
    rw [if_neg (by omega)]
    rw [if_neg (by omega), if_pos h4]

/-- Witness for C9: the spec's concrete scenarios — balance 50000 with
buyIn 60000 on a 1000/100000 room yields `Insufficient balance`; buyIn
100 on a room with minBuyIn 200 yields the range error. -/
theorem c9_join_validation_witness :
    joinRoom ⟨50, 100, 1000, 100000, 9, false⟩ 7 ⟨50000, [], []⟩ 0 60000
      = (.err 400 "Insufficient balance", ⟨50000, [], []⟩) ∧
    joinRoom ⟨10, 20, 200, 100000, 9, false⟩ 7 ⟨50000, [], []⟩ 0 100
      = (.err 400 ("Buy-in must be between " ++ toString (200 : Int) ++ " and "
          ++ toString (100000 : Int)), ⟨50000, [], []⟩) := by
  constructor
  · exact (c9_join_validation ⟨50, 100, 1000, 100000, 9, false⟩ 7 ⟨50000, [], []⟩ 0 60000
      rfl).2.2 (by decide) (by decide) (by decide) (by decide)
  · exact (c9_join_validation ⟨10, 20, 200, 100000, 9, false⟩ 7 ⟨50000, [], []⟩ 0 100
      rfl).1 (Or.inl (by decide))

/-- Counterexample for C9 as stated: room blinds 10/20 (minBuyIn 200,
maxBuyIn 2000), user balance 50, buyIn 200 — the buy-in is in range and
the balance is below it, yet the response is the 3-big-blind error, not
`Insufficient balance`. -/
theorem c9_counterexample :
    (200 : Int) ≥ 200 ∧ (200 : Int) ≤ 2000 ∧ (50 : Int) < 200 ∧
    (joinRoom ⟨10, 20, 200, 2000, 9, false⟩ 7 ⟨50, [], []⟩ 0 200).1
      = .err 400 "You need at least 60 chips (3 big blinds) to join" ∧
    (joinRoom ⟨10, 20, 200, 2000, 9, false⟩ 7 ⟨50, [], []⟩ 0 200).1
      ≠ .err 400 "Insufficient balance" := by decide

/-! ## Claim C10 -/

/-- C10 (amended): the ledger insert of `saveGameResult` is written to add
exactly one `win`-typed row per winner — amount = that winner's awarded
share, `balanceBefore` and `balanceAfter` both hard-coded to 0 regardless
of any wallet balance — whenever its guard sees a live `gameState`; but at
the end of every hand the engine calls `saveGameResult` without await and
`endHand()` nulls `gameState` while `saveGameResult` is suspended at its
first awaited stack update (the room map is non-empty then), so the guard
fails and NO win transactions are inserted at hand end. -/
theorem c10_win_transactions :
    (∀ result : RoundResult, result.winners ≠ [] →
       saveGameResultTransactions result true
         = result.winners.map (fun w => ⟨w.userId, "win", w.amount, 0, 0⟩) ∧
       (saveGameResultTransactions result true).length = result.winners.length ∧
       ∀ t ∈ saveGameResultTransactions result true,
         t.txType = "win" ∧ t.balanceBefore = 0 ∧ t.balanceAfter = 0) ∧
    (∀ (roomPlayers : List GamePlayer) (result : RoundResult), roomPlayers ≠ [] →
       endOfHandTransactions roomPlayers result = []) := by
  constructor
  · intro result h
    have hpos : result.winners.length > 0 ∧ (true : Bool) = true := by
      refine ⟨?_, rfl⟩
      cases hw : result.winners with
      | nil => exact absurd hw h
      | cons a l => simp [hw]
    unfold saveGameResultTransactions
    rw [if_pos hpos]
    refine ⟨rfl, by simp, ?_⟩
    intro t ht
    obtain ⟨w, _, hw⟩ := List.mem_map.mp ht
    rw [← hw]
    exact ⟨rfl, rfl, rfl⟩
  · intro roomPlayers result h
    unfold endOfHandTransactions saveGameResultTransactions
    have hne : roomPlayers.isEmpty = false := by
      cases roomPlayers with
      | nil => exact absurd rfl h
      | cons a l => rfl
    rw [hne]
    rw [if_neg (by simp)]

/-- Witness for C10: with a live `gameState` a one-winner result (player 7
awarded 30) yields the single zero-balance row; at an actual hand end with
one seated player, the same result yields no rows. -/
theorem c10_win_transactions_witness :
    saveGameResultTransactions ⟨[⟨7, 30, none⟩], 30, none, none⟩ true
      = [⟨7, "win", 30, 0, 0⟩] ∧
    endOfHandTransactions [mkPlayer 7 0 130] ⟨[⟨7, 30, none⟩], 30, none, none⟩ = [] := by
  exact ⟨(c10_win_transactions.1 ⟨[⟨7, 30, none⟩], 30, none, none⟩ (by decide)).1,
    c10_win_transactions.2 [mkPlayer 7 0 130] ⟨[⟨7, 30, none⟩], 30, none, none⟩ (by decide)⟩

/-- Counterexample for C10 as stated: at the end of a hand whose room map
holds its single winner (player 7, awarded 30), the transaction ledger
receives NO `win` row at all — not one row per winner — because
`endHand()` nulls `gameState` while the unawaited `saveGameResult` is
suspended before its guarded insert. -/
theorem c10_counterexample :
    endOfHandTransactions [mkPlayer 7 0 130] ⟨[⟨7, 30, none⟩], 30, none, none⟩ = [] ∧
    endOfHandTransactions [mkPlayer 7 0 130] ⟨[⟨7, 30, none⟩], 30, none, none⟩
      ≠ [⟨7, "win", 30, 0, 0⟩] ∧
    ([⟨7, 30, none⟩] : List WinnerEntry).length = 1 := by decide

/-! ## Claim C8 -/

theorem list_len2 {l : List GamePlayer} (h : l.length = 2) : ∃ a b, l = [a, b] := by
  match l, h with
  | [a, b], _ => exact ⟨a, b, rfl⟩

theorem getD_map_lt (f : GamePlayer → GamePlayer) :
    ∀ (l : List GamePlayer) (i : Nat), i < l.length →
      (l.map f).getD i defaultGamePlayer = f (l.getD i defaultGamePlayer) := by
  intro l
  induction l with
  | nil => intro i hi; simp at hi
  | cons a l ih =>
      intro i hi
      cases i with
      | zero => simp [List.getD]
      | succ i =>
          simp only [List.map_cons, List.getD_cons_succ]
          exact ih i (by simpa using hi)

theorem startNewHand_headsUp (cfg : RoomConfig) (rps : List GamePlayer)
    (ldi : Int) (deck : List Card) (s : HandState)
    (h : startNewHand cfg rps ldi deck = some s)
    (h2 : (rps.filter (fun p => p.stack > 0)).length = 2) :
    s.smallBlindIndex = s.dealerIndex ∧
    s.bigBlindIndex = (s.dealerIndex + 1) % 2 ∧
    s.currentPlayerIndex = s.dealerIndex ∧
    ∃ pd pb, s.players.get? s.dealerIndex = some pd ∧
      s.players.get? s.bigBlindIndex = some pb ∧
      pd.isDealer = true ∧ pd.isSmallBlind = true ∧ pb.isBigBlind = true ∧
      pd.currentBet = min cfg.smallBlind (pd.stack + pd.currentBet) ∧
      pb.currentBet = min cfg.bigBlind (pb.stack + pb.currentBet) := by
  unfold startNewHand at h
  rw [if_neg (by omega)] at h
  dsimp only at h
  have hsp : (sortBySeat (rps.filter (fun p => p.stack > 0))).length = 2 := by
    unfold sortBySeat
    rw [sortedBy_length]
    exact h2
  obtain ⟨a, b, hab⟩ := list_len2 hsp
  rw [hab] at h
  simp only [dealHoles, dealFrom, List.length_cons, List.length_nil] at h
  norm_num at h
  have hd2 : ((ldi + 1).emod (2 : Int)).toNat < 2 := by
    have h1 : 0 ≤ (ldi + 1).emod (2 : Int) := Int.emod_nonneg (ldi + 1) (by omega)
    have hlt : (ldi + 1).emod (2 : Int) < 2 := Int.emod_lt_of_pos (ldi + 1) (by omega)
    omega
  set d := ((ldi + 1).emod (2 : Int)).toNat with hddef
  rcases (by omega : d = 0 ∨ d = 1) with hd | hd
  · rw [hd] at h
    norm_num [modifyIdx, postBlind, List.getD] at h
    subst h
    refine ⟨by norm_num, by norm_num, by norm_num, _, _, rfl, rfl,
      by simp, by simp, by simp, ?_, ?_⟩
    · dsimp only
      have hcancel : a.stack - min cfg.smallBlind a.stack + min cfg.smallBlind a.stack
          = a.stack := by ring
      rw [hcancel]
    · dsimp only
      have hcancel : b.stack - min cfg.bigBlind b.stack + min cfg.bigBlind b.stack
          = b.stack := by ring
      rw [hcancel]
  · rw [hd] at h
    norm_num [modifyIdx, postBlind, List.getD] at h
    subst h
    refine ⟨by norm_num, by norm_num, by norm_num, _, _, rfl, rfl,
      by simp, by simp, by simp, ?_, ?_⟩
    · dsimp only
      have hcancel : b.stack - min cfg.smallBlind b.stack + min cfg.smallBlind b.stack
          = b.stack := by ring
      rw [hcancel]
    · dsimp only
      have hcancel : a.stack - min cfg.bigBlind a.stack + min cfg.bigBlind a.stack
          = a.stack := by ring
      rw [hcancel]

theorem advancePhase_first_actor (cfg : RoomConfig) (s : HandState) (s2 : HandState)
    (hlen : s.players.length = 2)
    (hbb : s.bigBlindIndex = (s.dealerIndex + 1) % 2)
    (hact : (s.players.getD s.bigBlindIndex defaultGamePlayer).status = .active)
    (h : advancePhase cfg s = some (.cont s2)) :
    s2.currentPlayerIndex = s.bigBlindIndex := by
  have hfa : findActiveStart (s.players.map (fun p => { p with currentBet := 0 }))
      s.dealerIndex = some s.bigBlindIndex := by
    unfold findActiveStart
    simp only [List.length_map, hlen]
    rw [if_neg (by omega)]
    rw [← hbb]
    have hgd : ((s.players.map (fun p => { p with currentBet := 0 })).getD s.bigBlindIndex
        defaultGamePlayer).status = PStatus.active := by
      rw [getD_map_lt _ s.players s.bigBlindIndex (by omega)]
      exact hact
    simp only [findActiveGo, hgd]
    simp
  unfold advancePhase at h
  by_cases h4 : 4 ≤ phaseIndex s.phase
  · rw [if_pos h4] at h
    cases hs : showdown { s with
        acted := [], lastAggressorId := none,
        players := s.players.map (fun p => { p with currentBet := 0 }),
        currentBet := 0, minRaise := cfg.bigBlind } with
    | none => rw [hs] at h; simp at h
    | some pr => rw [hs] at h; simp at h
  · rw [if_neg h4] at h
    by_cases hsd : phaseOfIndex (phaseIndex s.phase + 1) = Phase.showdownPhase
    · rw [if_pos hsd] at h
      cases hs : showdown { s with
          phase := phaseOfIndex (phaseIndex s.phase + 1),
          acted := [], lastAggressorId := none,
          players := s.players.map (fun p => { p with currentBet := 0 }),
          currentBet := 0, minRaise := cfg.bigBlind } with
      | none => rw [hs] at h; simp at h
      | some pr => rw [hs] at h; simp at h
    · rw [if_neg hsd] at h
      dsimp only at h
      rw [hfa] at h
      dsimp only at h
      split at h
      · cases hs2 : showdown _ with
        | none => rw [hs2] at h; simp at h
        | some pr => rw [hs2] at h; simp at h
      · injection h with h1
        injection h1 with h2
        rw [← h2]

/-- C8: in every hand whose eligible player set has exactly two members,
`startNewHand` makes the dealer the small blind (same index, dealer flag
and small-blind flag on the same player, small blind posted from their
stack), the other player the big blind (flag set, big blind posted), and
the dealer the first to act preflop; and on every street advance in a
heads-up hand, when the big blind (the seat after the dealer) is still
active, `advancePhase` hands the first action of the new street to the
big blind. -/
theorem c8_headsup_positions :
    (∀ cfg rps ldi deck s, startNewHand cfg rps ldi deck = some s →
       (rps.filter (fun p => p.stack > 0)).length = 2 →
       s.smallBlindIndex = s.dealerIndex ∧
       s.bigBlindIndex = (s.dealerIndex + 1) % 2 ∧
       s.currentPlayerIndex = s.dealerIndex ∧
       ∃ pd pb, s.players.get? s.dealerIndex = some pd ∧
         s.players.get? s.bigBlindIndex = some pb ∧
         pd.isDealer = true ∧ pd.isSmallBlind = true ∧ pb.isBigBlind = true ∧
         pd.currentBet = min cfg.smallBlind (pd.stack + pd.currentBet) ∧
         pb.currentBet = min cfg.bigBlind (pb.stack + pb.currentBet)) ∧
    (∀ cfg s s2, s.players.length = 2 →
       s.bigBlindIndex = (s.dealerIndex + 1) % 2 →
       (s.players.getD s.bigBlindIndex defaultGamePlayer).status = .active →
       advancePhase cfg s = some (.cont s2) →
       s2.currentPlayerIndex = s.bigBlindIndex) :=
  ⟨fun cfg rps ldi deck s h h2 => startNewHand_headsUp cfg rps ldi deck s h h2,
   fun cfg s s2 hl hb ha h => advancePhase_first_actor cfg s s2 hl hb ha h⟩

/-- Witness for C8: a concrete heads-up hand start (stacks 200/300) and a
concrete preflop-to-flop advance (`c8FlopState`), with the dealer acting
first preflop and the big blind first on the flop. -/
theorem c8_headsup_positions_witness :
    (∃ s, startNewHand demoCfg [mkPlayer 1 0 200, mkPlayer 2 1 300] (-1) demoDeck = some s ∧
       s.smallBlindIndex = s.dealerIndex ∧ s.bigBlindIndex = (s.dealerIndex + 1) % 2 ∧
       s.currentPlayerIndex = s.dealerIndex) ∧
    (∃ s2, advancePhase demoCfg c8FlopState = some (.cont s2) ∧
       s2.currentPlayerIndex = c8FlopState.bigBlindIndex) := by
  constructor
  · have h0 : (startNewHand demoCfg [mkPlayer 1 0 200, mkPlayer 2 1 300]
        (-1) demoDeck).isSome = true := by decide
    obtain ⟨s, hs⟩ := Option.isSome_iff_exists.mp h0
    have hh := c8_headsup_positions.1 demoCfg _ (-1) demoDeck s hs (by decide)
    exact ⟨s, hs, hh.1, hh.2.1, hh.2.2.1⟩
  · have h0 : (contState (advancePhase demoCfg c8FlopState)).isSome = true := by decide
    obtain ⟨s2, hs2⟩ := Option.isSome_iff_exists.mp h0
    have hadv : advancePhase demoCfg c8FlopState = some (.cont s2) := by
      cases hx : advancePhase demoCfg c8FlopState with
      | none => rw [hx] at hs2; simp [contState] at hs2
      | some res =>
          cases res with
          | cont t =>
              rw [hx] at hs2
              simp [contState] at hs2
              rw [hs2]
          | ended a b => rw [hx] at hs2; simp [contState] at hs2
    exact ⟨s2, hadv,
      c8_headsup_positions.2 demoCfg c8FlopState s2 (by decide) (by decide) (by decide) hadv⟩

/-! ## Claim C3 -/

theorem evalFive_bounds (c : List Card) (r : HandRank) (v : Nat)
    (h : evaluateFiveCards c = some (r, v)) :
    handRankings r * 1000000000 ≤ v ∧ v < handRankings r * 1000000000 + 1000000000 := by
  unfold evaluateFiveCards at h
  by_cases h5 : c.length = 5
  · rw [if_pos h5] at h
    dsimp only at h
    have hbase := baseValue_le c h5
    have e0 := entryRv_le (sortedRankEntries c) 0
    have e1 := entryRv_le (sortedRankEntries c) 1
    have e2 := entryRv_le (sortedRankEntries c) 2
    have r0 := rvAt_le (sortByRank c) 0
    split_ifs at h <;>
      (injection h with h1; injection h1 with hr hv; subst hr; subst hv;
       simp only [handRankings]; omega)
  · rw [if_neg h5] at h
    simp at h

theorem evalFive_pair_value (c : List Card) (v : Nat)
    (h : evaluateFiveCards c = some (.pair, v)) :
    v = 2000000000 + entryRv (sortedRankEntries c) 0 * 1000000 := by
  unfold evaluateFiveCards at h
  by_cases h5 : c.length = 5
  · rw [if_pos h5] at h
    dsimp only at h
    split_ifs at h <;>
      (injection h with h1; injection h1 with hr hv;
       first
         | exact absurd hr (by decide)
         | (rw [← hv]; norm_num [handRankings]))
  · rw [if_neg h5] at h
    simp at h

theorem evalFive_trips_value (c : List Card) (v : Nat)
    (h : evaluateFiveCards c = some (.threeOfAKind, v)) :
    v = 4000000000 + entryRv (sortedRankEntries c) 0 * 1000000 := by
  unfold evaluateFiveCards at h
  by_cases h5 : c.length = 5
  · rw [if_pos h5] at h
    dsimp only at h
    split_ifs at h <;>
      (injection h with h1; injection h1 with hr hv;
       first
         | exact absurd hr (by decide)
         | (rw [← hv]; norm_num [handRankings]))
  · rw [if_neg h5] at h
    simp at h

theorem evalFive_quads_value (c : List Card) (v : Nat)
    (h : evaluateFiveCards c = some (.fourOfAKind, v)) :
    v = 8000000000 + entryRv (sortedRankEntries c) 0 * 1000000 := by
  unfold evaluateFiveCards at h
  by_cases h5 : c.length = 5
  · rw [if_pos h5] at h
    dsimp only at h
    split_ifs at h <;>
      (injection h with h1; injection h1 with hr hv;
       first
         | exact absurd hr (by decide)
         | (rw [← hv]; norm_num [handRankings]))
  · rw [if_neg h5] at h
    simp at h

/-- C3 (amended): the evaluator's value is a total order in which a hand
of a stronger CATEGORY always compares greater (every category occupies a
disjoint billion-wide band); but within the pair, three-of-a-kind and
four-of-a-kind categories the value depends only on the pair/set rank —
kickers are ignored — so two such hands with the same pair/set rank
receive EQUAL keys regardless of their kickers, rather than being ordered
by kickers in descending rank. -/
theorem c3_orderingKey :
    (∀ c1 c2 r1 v1 r2 v2, evaluateFiveCards c1 = some (r1, v1) →
       evaluateFiveCards c2 = some (r2, v2) →
       handRankings r2 < handRankings r1 → v2 < v1) ∧
    (∀ c1 c2 v1 v2, evaluateFiveCards c1 = some (.pair, v1) →
       evaluateFiveCards c2 = some (.pair, v2) →
       entryRv (sortedRankEntries c1) 0 = entryRv (sortedRankEntries c2) 0 → v1 = v2) ∧
    (∀ c1 c2 v1 v2, evaluateFiveCards c1 = some (.threeOfAKind, v1) →
       evaluateFiveCards c2 = some (.threeOfAKind, v2) →
       entryRv (sortedRankEntries c1) 0 = entryRv (sortedRankEntries c2) 0 → v1 = v2) ∧
    (∀ c1 c2 v1 v2, evaluateFiveCards c1 = some (.fourOfAKind, v1) →
       evaluateFiveCards c2 = some (.fourOfAKind, v2) →
       entryRv (sortedRankEntries c1) 0 = entryRv (sortedRankEntries c2) 0 → v1 = v2) := by
  refine ⟨?_, ?_, ?_, ?_⟩
  · intro c1 c2 r1 v1 r2 v2 h1 h2 hlt
    obtain ⟨hl1, hu1⟩ := evalFive_bounds c1 r1 v1 h1
    obtain ⟨hl2, hu2⟩ := evalFive_bounds c2 r2 v2 h2
    have hstep : handRankings r2 + 1 ≤ handRankings r1 := hlt
    calc v2 < handRankings r2 * 1000000000 + 1000000000 := hu2
      _ = (handRankings r2 + 1) * 1000000000 := by ring
      _ ≤ handRankings r1 * 1000000000 := Nat.mul_le_mul_right _ hstep
      _ ≤ v1 := hl1
  · intro c1 c2 v1 v2 h1 h2 he
    rw [evalFive_pair_value c1 v1 h1, evalFive_pair_value c2 v2 h2, he]
  · intro c1 c2 v1 v2 h1 h2 he
    rw [evalFive_trips_value c1 v1 h1, evalFive_trips_value c2 v2 h2, he]
  · intro c1 c2 v1 v2 h1 h2 he
    rw [evalFive_quads_value c1 v1 h1, evalFive_quads_value c2 v2 h2, he]

/-- Witness for C3: the category ordering applied to a concrete full house
over a concrete pair, and the kicker-blind equality applied to two pair
hands sharing the pair rank.  -/
theorem c3_orderingKey_witness :
    (7013005000 : Nat) > 2002000000 ∧ (2002000000 : Nat) = 2002000000 := by
  constructor
  · exact c3_orderingKey.1
      [⟨.spades, .rK⟩, ⟨.hearts, .rK⟩, ⟨.diamonds, .rK⟩, ⟨.clubs, .r5⟩, ⟨.spades, .r5⟩]
      [⟨.diamonds, .r2⟩, ⟨.clubs, .r2⟩, ⟨.diamonds, .r7⟩, ⟨.clubs, .r4⟩, ⟨.spades, .r3⟩]
      .fullHouse 7013005000 .pair 2002000000 (by decide) (by decide) (by decide)
  · exact c3_orderingKey.2.1
      [⟨.spades, .r2⟩, ⟨.hearts, .r2⟩, ⟨.diamonds, .rA⟩, ⟨.clubs, .rK⟩, ⟨.spades, .rQ⟩]
      [⟨.diamonds, .r2⟩, ⟨.clubs, .r2⟩, ⟨.diamonds, .r7⟩, ⟨.clubs, .r4⟩, ⟨.spades, .r3⟩]
      2002000000 2002000000 (by decide) (by decide) (by decide)

/-- Counterexample for C3 as stated: two pair-category hands with the same
pair rank (deuces) and different kickers — A-K-Q against 7-4-3 — receive
the SAME orderingKey 2002000000, so the hand with the greater kicker does
not compare greater. -/
theorem c3_counterexample :
    evaluateFiveCards
        [⟨.spades, .r2⟩, ⟨.hearts, .r2⟩, ⟨.diamonds, .rA⟩, ⟨.clubs, .rK⟩, ⟨.spades, .rQ⟩]
      = some (.pair, 2002000000) ∧
    evaluateFiveCards
        [⟨.diamonds, .r2⟩, ⟨.clubs, .r2⟩, ⟨.diamonds, .r7⟩, ⟨.clubs, .r4⟩, ⟨.spades, .r3⟩]
      = some (.pair, 2002000000) ∧
    ¬ (2002000000 : Nat) > 2002000000 := by decide
